import Mathlib

/-! Verification model of the MySQL statement-samples collection engine
    (datadog_checks/mysql/statement_samples.py), shallowly embedded as pure
    Lean functions over explicit state.  External collaborators (the database
    cursor results, the SQL obfuscator, the signature functions, the event
    sink) are supplied as oracle parameters, matching the boundary drawn in
    the specification. -/

namespace StatementSamples

/-- Kinds of Python exceptions the modelled code can raise. -/
inductive PyErr
  | keyError
  | typeError
  | valueError
  | attributeError
  | jsonDecodeError
  | obfuscationError
  | databaseError (nargs : Nat) (code : Int)
  deriving DecidableEq, Repr

/-- A Python value as stored in a DictCursor row: NULL, a string, or a number
    (numbers modelled as exact rationals). -/
inductive PyVal
  | vnull
  | vstr (s : String)
  | vnum (q : ℚ)
  deriving DecidableEq, Repr

/-- Python truthiness of a row value. -/
def PyVal.truthy : PyVal → Bool
  | .vnull => false
  | .vstr s => s ≠ ""
  | .vnum q => q ≠ 0

/-- A DictCursor row: an insertion-ordered mapping from column names to
    values, as produced by pymysql.cursors.DictCursor. -/
abbrev PyDict := List (String × PyVal)

/-- Python d[k]: the value under key k, if the key is present. -/
def pyLookup (d : PyDict) (k : String) : Option PyVal :=
  (d.find? (fun kv => kv.1 = k)).map (fun kv => kv.2)

/-- Python str(x) as used to build cache keys from a schema value. -/
def pyStr : PyVal → String
  | .vnull => "None"
  | .vstr s => s
  | .vnum q => toString q

/-! ### Bounded expiring cache

Model of cachetools.TTLCache as used by the engine: per-entry time to live,
a capacity bound, and least-recently-used eviction.  The engine only inserts
and tests membership (it never reads values through getitem), so the LRU
order coincides with insertion order.  `entries` is kept oldest first.
An entry inserted at time t is still live at time now iff now ≤ t + ttl
(cachetools treats an entry as expired once its expiry time is strictly in
the past).  `evictions` counts capacity evictions; it is instrumentation
only and does not influence any other field.  The model is intended for
maxsize ≥ 1, matching every configuration the engine constructs. -/
structure TTLCache (K V : Type) where
  maxsize : Nat
  ttl : Nat
  entries : List (K × V × Nat)
  evictions : Nat
  deriving Repr

/-- A fresh cache, as built in MySQLStatementSamples.__init__. -/
def TTLCache.empty (K V : Type) (maxsize ttl : Nat) : TTLCache K V :=
  ⟨maxsize, ttl, [], 0⟩

/-- Cache read at a given time: present and not expired. -/
def TTLCache.getAt {K V : Type} [DecidableEq K] (c : TTLCache K V) (k : K)
    (now : Nat) : Option V :=
  match c.entries.find? (fun e => e.1 = k) with
  | none => none
  | some e => if now ≤ e.2.2 + c.ttl then some e.2.1 else none

/-- Drop entries whose expiry time is strictly before now. -/
def TTLCache.expire {K V : Type} (c : TTLCache K V) (now : Nat) : TTLCache K V :=
  { c with entries := c.entries.filter (fun e => now ≤ e.2.2 + c.ttl) }

/-- Cache write at a given time: first purge expired entries, then either
    refresh an existing key (moving it to the most recent position) or
    append the new entry, evicting the oldest entries if over capacity. -/
def TTLCache.insert {K V : Type} [DecidableEq K] (c : TTLCache K V) (k : K)
    (v : V) (now : Nat) : TTLCache K V :=
  let c1 := c.expire now
  let present := c1.entries.any (fun e => e.1 = k)
  let rest := c1.entries.filter (fun e => ¬ (e.1 = k))
  if present then { c1 with entries := rest ++ [(k, v, now)] }
  else
    let overflow := rest.length + 1 - c1.maxsize
    { c1 with entries := rest.drop overflow ++ [(k, v, now)],
              evictions := c1.evictions + overflow }

/-! ### JSON values and parsing

Model of json.loads as applied to execution-plan payloads, plus the Python
dict.get chain and float() conversion used by _parse_execution_plan_cost.
Numbers are exact rationals.  The parser follows the shape of the strict
JSON grammar; exotic corners (NaN and Infinity literals, the rejection of
raw control characters inside strings) are outside the inputs exercised
here and are noted where simplified. -/
inductive Json
  | jnull
  | jbool (b : Bool)
  | jnum (q : ℚ)
  | jstr (s : String)
  | jarr (xs : List Json)
  | jobj (kvs : List (String × Json))

/-- Skip JSON whitespace. -/
def skipWs : List Char → List Char
  | [] => []
  | c :: cs => if c = ' ' ∨ c = '\t' ∨ c = '\n' ∨ c = '\r' then skipWs cs else c :: cs

def digitVal (c : Char) : Option Nat :=
  if c.isDigit then some (c.toNat - 48) else none

/-- Consume a run of digits, returning its value, its length and the rest. -/
def parseDigits : List Char → Nat → Nat → (Nat × Nat × List Char)
  | [], acc, n => (acc, n, [])
  | c :: cs, acc, n =>
    match digitVal c with
    | some d => parseDigits cs (acc * 10 + d) (n + 1)
    | none => (acc, n, c :: cs)

/-- Parse a JSON number literal (sign, integer part with no redundant
    leading zero, optional fraction, optional exponent). -/
def parseJsonNumber (cs : List Char) : Option (ℚ × List Char) :=
  let signed : Bool × List Char :=
    match cs with
    | '-' :: t => (true, t)
    | _ => (false, cs)
  let cs1 := signed.2
  match cs1 with
  | [] => none
  | c0 :: _ =>
    if ¬ c0.isDigit then none
    else
      let ip := parseDigits cs1 0 0
      if ip.2.1 = 0 then none
      else if c0 = '0' ∧ ip.2.1 ≠ 1 then none
      else
        let fracd : Option (ℚ × List Char) :=
          match ip.2.2 with
          | '.' :: t =>
            let fp := parseDigits t 0 0
            if fp.2.1 = 0 then none
            else some (((fp.1 : ℚ) / ((10 : ℚ) ^ fp.2.1)), fp.2.2)
          | _ => some (0, ip.2.2)
        match fracd with
        | none => none
        | some (fq, cs2) =>
          let expd : Option (ℚ × List Char) :=
            match cs2 with
            | 'e' :: t | 'E' :: t =>
              let esigned : Bool × List Char :=
                match t with
                | '+' :: u => (false, u)
                | '-' :: u => (true, u)
                | _ => (false, t)
              let ep := parseDigits esigned.2 0 0
              if ep.2.1 = 0 then none
              else some (if esigned.1 then ((10 : ℚ) ^ ep.1)⁻¹ else ((10 : ℚ) ^ ep.1), ep.2.2)
            | _ => some (1, cs2)
          match expd with
          | none => none
          | some (scale, cs3) =>
            let mag := ((ip.1 : ℚ) + fq) * scale
            some (if signed.1 then -mag else mag, cs3)

def hexVal (c : Char) : Option Nat :=
  if c.isDigit then some (c.toNat - 48)
  else if 'a' ≤ c ∧ c ≤ 'f' then some (c.toNat - 87)
  else if 'A' ≤ c ∧ c ≤ 'F' then some (c.toNat - 55)
  else none

/-- Parse the body of a JSON string after the opening quote, handling the
    standard escapes. -/
def parseJsonStringBody (fuel : Nat) (cs : List Char) (acc : List Char) :
    Option (String × List Char) :=
  match fuel with
  | 0 => none
  | fuel + 1 =>
    match cs with
    | [] => none
    | '"' :: rest => some (String.mk acc.reverse, rest)
    | '\\' :: e :: rest =>
      match e with
      | '"' => parseJsonStringBody fuel rest ('"' :: acc)
      | '\\' => parseJsonStringBody fuel rest ('\\' :: acc)
      | '/' => parseJsonStringBody fuel rest ('/' :: acc)
      | 'b' => parseJsonStringBody fuel rest ('\x08' :: acc)
      | 'f' => parseJsonStringBody fuel rest ('\x0c' :: acc)
      | 'n' => parseJsonStringBody fuel rest ('\n' :: acc)
      | 'r' => parseJsonStringBody fuel rest ('\r' :: acc)
      | 't' => parseJsonStringBody fuel rest ('\t' :: acc)
      | 'u' =>
        match rest with
        | h1 :: h2 :: h3 :: h4 :: rest2 =>
          match hexVal h1, hexVal h2, hexVal h3, hexVal h4 with
          | some a, some b, some c, some d =>
            parseJsonStringBody fuel rest2
              (Char.ofNat (((a * 16 + b) * 16 + c) * 16 + d) :: acc)
          | _, _, _, _ => none
        | _ => none
      | _ => none
    | c :: rest => parseJsonStringBody fuel rest (c :: acc)

mutual

/-- Parse one JSON value (leading whitespace already skipped). -/
def parseJsonValue (fuel : Nat) (cs : List Char) : Option (Json × List Char) :=
  match fuel with
  | 0 => none
  | fuel + 1 =>
    match cs with
    | 'n' :: 'u' :: 'l' :: 'l' :: rest => some (.jnull, rest)
    | 't' :: 'r' :: 'u' :: 'e' :: rest => some (.jbool true, rest)
    | 'f' :: 'a' :: 'l' :: 's' :: 'e' :: rest => some (.jbool false, rest)
    | '"' :: rest =>
      match parseJsonStringBody (rest.length + 1) rest [] with
      | some (s, rest2) => some (.jstr s, rest2)
      | none => none
    | '[' :: rest =>
      let rest1 := skipWs rest
      match rest1 with
      | ']' :: rest2 => some (.jarr [], rest2)
      | _ =>
        match parseJsonElems fuel rest1 with
        | some (xs, rest2) => some (.jarr xs, rest2)
        | none => none
    | '\x7b' :: rest =>
      let rest1 := skipWs rest
      match rest1 with
      | '\x7d' :: rest2 => some (.jobj [], rest2)
      | _ =>
        match parseJsonMembers fuel rest1 with
        | some (kvs, rest2) => some (.jobj kvs, rest2)
        | none => none
    | _ =>
      match parseJsonNumber cs with
      | some (q, rest) => some (.jnum q, rest)
      | none => none

/-- Parse the elements of a non-empty JSON array up to the closing bracket. -/
def parseJsonElems (fuel : Nat) (cs : List Char) : Option (List Json × List Char) :=
  match fuel with
  | 0 => none
  | fuel + 1 =>
    match parseJsonValue fuel cs with
    | none => none
    | some (x, rest) =>
      match skipWs rest with
      | ',' :: rest2 =>
        match parseJsonElems fuel (skipWs rest2) with
        | some (xs, rest3) => some (x :: xs, rest3)
        | none => none
      | ']' :: rest2 => some ([x], rest2)
      | _ => none

/-- Parse the members of a non-empty JSON object up to the closing brace. -/
def parseJsonMembers (fuel : Nat) (cs : List Char) : Option (List (String × Json) × List Char) :=
  match fuel with
  | 0 => none
  | fuel + 1 =>
    match cs with
    | '"' :: rest =>
      match parseJsonStringBody (rest.length + 1) rest [] with
      | none => none
      | some (k, rest1) =>
        match skipWs rest1 with
        | ':' :: rest2 =>
          match parseJsonValue fuel (skipWs rest2) with
          | none => none
          | some (v, rest3) =>
            match skipWs rest3 with
            | ',' :: rest4 =>
              match parseJsonMembers fuel (skipWs rest4) with
              | some (kvs, rest5) => some ((k, v) :: kvs, rest5)
              | none => none
            | '\x7d' :: rest4 => some ([(k, v)], rest4)
            | _ => none
        | _ => none
    | _ => none

end

/-- Model of json.loads: parse a complete JSON document, rejecting trailing
    garbage; none models a raised JSONDecodeError. -/
def jsonLoads (s : String) : Option Json :=
  match parseJsonValue (s.length + 1) (skipWs s.data) with
  | some (j, rest) => if skipWs rest = [] then some j else none
  | none => none

/-- Python dict.get(k, default).  The receiver must be a dict, otherwise an
    AttributeError is raised, as in the .get chain of
    _parse_execution_plan_cost when an intermediate value is not an object. -/
def jsonGetDefault (j : Json) (k : String) (dflt : Json) : Except PyErr Json :=
  match j with
  | .jobj kvs =>
    .ok (match kvs.find? (fun kv => kv.1 = k) with
         | some kv => kv.2
         | none => dflt)
  | _ => .error .attributeError

/-- Python truthiness of a JSON value, for the cost or 0.0 expression. -/
def jsonTruthy : Json → Bool
  | .jnull => false
  | .jbool b => b
  | .jnum q => q ≠ 0
  | .jstr s => s ≠ ""
  | .jarr xs => ¬ xs.isEmpty
  | .jobj kvs => ¬ kvs.isEmpty

/-- Python float(s) on a string: optional surrounding whitespace, optional
    sign, digits with an optional fractional part and exponent.  A string
    float() rejects raises ValueError. -/
def parseFloatChars (cs : List Char) : Option ℚ :=
  let signed : Bool × List Char :=
    match cs with
    | '-' :: t => (true, t)
    | '+' :: t => (false, t)
    | _ => (false, cs)
  let ip := parseDigits signed.2 0 0
  let fracd : Option (ℚ × List Char) :=
    match ip.2.2 with
    | '.' :: t =>
      let fp := parseDigits t 0 0
      if ip.2.1 = 0 ∧ fp.2.1 = 0 then none
      else some ((fp.1 : ℚ) / ((10 : ℚ) ^ fp.2.1), fp.2.2)
    | _ => if ip.2.1 = 0 then none else some (0, ip.2.2)
  match fracd with
  | none => none
  | some (fq, cs2) =>
    let expd : Option (ℚ × List Char) :=
      match cs2 with
      | 'e' :: t | 'E' :: t =>
        let esigned : Bool × List Char :=
          match t with
          | '+' :: u => (false, u)
          | '-' :: u => (true, u)
          | _ => (false, t)
        let ep := parseDigits esigned.2 0 0
        if ep.2.1 = 0 then none
        else some (if esigned.1 then ((10 : ℚ) ^ ep.1)⁻¹ else ((10 : ℚ) ^ ep.1), ep.2.2)
      | _ => some (1, cs2)
    match expd with
    | none => none
    | some (scale, cs3) =>
      if cs3 = [] then
        let mag := ((ip.1 : ℚ) + fq) * scale
        some (if signed.1 then -mag else mag)
      else none

def pyFloatOfString (s : String) : Option ℚ :=
  parseFloatChars (skipWs s.data)

/-- Python float(x) applied to the value read out of the plan JSON. -/
def pyFloatOfJson : Json → Except PyErr ℚ
  | .jnum q => .ok q
  | .jstr s =>
    match pyFloatOfString s with
    | some q => .ok q
    | none => .error .valueError
  | .jbool b => .ok (if b then 1 else 0)
  | .jnull => .error .typeError
  | .jarr _ => .error .typeError
  | .jobj _ => .error .typeError

/-- Model of MySQLStatementSamples._parse_execution_plan_cost: read the
    nested query_block.cost_info.query_cost field out of the plan payload,
    defaulting each missing step to an empty dict and the missing cost to
    0.0, then convert with float(cost or 0.0).  There is no exception
    handler in the source, so a JSON decode failure (or a .get on a
    non-dict, or a float() failure) propagates as an error. -/
def parse_execution_plan_cost (execution_plan : String) : Except PyErr ℚ :=
  match jsonLoads execution_plan with
  | none => .error .jsonDecodeError
  | some parsed =>
    match jsonGetDefault parsed "query_block" (Json.jobj []) with
    | .error e => .error e
    | .ok qb =>
      match jsonGetDefault qb "cost_info" (Json.jobj []) with
      | .error e => .error e
      | .ok ci =>
        match jsonGetDefault ci "query_cost" (Json.jnum 0) with
        | .error e => .error e
        | .ok cost => if jsonTruthy cost then pyFloatOfJson cost else .ok 0

/-! ### Statement rows and the incremental fetch

One row of EVENTS_STATEMENTS_QUERY, typed according to its SELECT list.
sql_text is non-null by the WHERE clause and digest_text by the IFNULL;
the columns recovered through the LEFT JOIN on performance_schema.threads
are nullable, as is current_schema and the derived timestamp. -/
structure StatementRow where
  current_schema : Option String
  sql_text : String
  digest_text : String
  timer_start : Nat
  timer_end_time_s : ℚ
  timer_wait_ns : ℚ
  lock_time_ns : ℚ
  rows_affected : Nat
  rows_sent : Nat
  rows_examined : Nat
  select_full_join : Nat
  select_full_range_join : Nat
  select_range : Nat
  select_range_check : Nat
  select_scan : Nat
  sort_merge_passes : Nat
  sort_range : Nat
  sort_rows : Nat
  sort_scan : Nat
  no_index_used : Nat
  no_good_index_used : Nat
  processlist_user : Option String
  processlist_host : Option String
  processlist_db : Option String
  deriving DecidableEq, Repr

def optStr : Option String → PyVal
  | none => .vnull
  | some s => .vstr s

/-- The DictCursor dict for a fetched row, keyed in SELECT-list order. -/
def rowToDict (r : StatementRow) : PyDict :=
  [("current_schema", optStr r.current_schema),
   ("sql_text", .vstr r.sql_text),
   ("digest_text", .vstr r.digest_text),
   ("timer_start", .vnum r.timer_start),
   ("timer_end_time_s", .vnum r.timer_end_time_s),
   ("timer_wait_ns", .vnum r.timer_wait_ns),
   ("lock_time_ns", .vnum r.lock_time_ns),
   ("rows_affected", .vnum r.rows_affected),
   ("rows_sent", .vnum r.rows_sent),
   ("rows_examined", .vnum r.rows_examined),
   ("select_full_join", .vnum r.select_full_join),
   ("select_full_range_join", .vnum r.select_full_range_join),
   ("select_range", .vnum r.select_range),
   ("select_range_check", .vnum r.select_range_check),
   ("select_scan", .vnum r.select_scan),
   ("sort_merge_passes", .vnum r.sort_merge_passes),
   ("sort_range", .vnum r.sort_range),
   ("sort_rows", .vnum r.sort_rows),
   ("sort_scan", .vnum r.sort_scan),
   ("no_index_used", .vnum r.no_index_used),
   ("no_good_index_used", .vnum r.no_good_index_used),
   ("processlist_user", optStr r.processlist_user),
   ("processlist_host", optStr r.processlist_host),
   ("processlist_db", optStr r.processlist_db)]

/-- Python max(r[timer_start] for r in rows) on a non-empty batch; the
    empty case is unreachable behind the callers' emptiness guard. -/
def maxTimerStart : List StatementRow → Nat
  | [] => 0
  | r :: rs => rs.foldl (fun m x => max m x.timer_start) r.timer_start

/-- Outcome of the events_statements cursor execution: either the fetched
    batch or a database error raised by the driver. -/
inductive FetchOutcome
  | rows (rs : List StatementRow)
  | dbError (nargs : Nat) (code : Int)
  deriving Repr

/-- Model of _get_new_events_statements restricted to its state effect: a
    database error propagates with the checkpoint untouched; an empty batch
    leaves the checkpoint unchanged; a non-empty batch advances the
    checkpoint to the maximum timer_start in the batch. -/
def get_new_events_statements (outcome : FetchOutcome) (checkpoint : Nat) :
    Except PyErr (List StatementRow) × Nat :=
  match outcome with
  | .dbError nargs code => (.error (.databaseError nargs code), checkpoint)
  | .rows [] => (.ok [], checkpoint)
  | .rows (r :: rs) => (.ok (r :: rs), maxTimerStart (r :: rs))

/-- The checkpoint as initialised in __init__ (pull the whole history on the
    first run). -/
def checkpoint_initial : Nat := 0

/-- The checkpoint after a sequence of fetch cycles. -/
def run_fetches (cp : Nat) : List FetchOutcome → Nat
  | [] => cp
  | o :: os => run_fetches (get_new_events_statements o cp).2 os

/-- The database honours the WHERE timer_start strictly greater filter of
    EVENTS_STATEMENTS_QUERY for this batch. -/
def validOutcome (cp : Nat) : FetchOutcome → Bool
  | .rows rs => rs.all (fun r => cp < r.timer_start)
  | .dbError _ _ => true

/-- Every batch of the run honours the filter against the checkpoint that
    was current when it was fetched. -/
def validFetchRun (cp : Nat) : List FetchOutcome → Bool
  | [] => true
  | o :: os => validOutcome cp o && validFetchRun (get_new_events_statements o cp).2 os

/-! ### Sample filter

Model of _filter_valid_statement_rows.  The rows are DictCursor dicts; the
Python expression all(row) iterates over the dict's KEYS, so it tests the
truthiness of the column names, not of the stored values.  row[sql_text]
raises KeyError when the key is absent, and slicing a non-string raises
TypeError; an exception escaping the generator is recorded in `raised`
together with the rows already yielded before it. -/
structure FilterResult where
  yielded : List PyDict
  num_sent : Nat
  num_truncated : Nat
  raised : Option PyErr
  deriving DecidableEq, Repr

def keyTruthy (kv : String × PyVal) : Bool := kv.1 ≠ ""

def filter_valid_statement_rows_go :
    List PyDict → List PyDict → Nat → Nat → FilterResult
  | [], acc, sent, trunc => ⟨acc.reverse, sent, trunc, none⟩
  | row :: rest, acc, sent, trunc =>
    if row.isEmpty || ¬ row.all keyTruthy then
      filter_valid_statement_rows_go rest acc sent trunc
    else
      match pyLookup row "sql_text" with
      | none => ⟨acc.reverse, sent, trunc, some .keyError⟩
      | some v =>
        if ¬ v.truthy then filter_valid_statement_rows_go rest acc sent trunc
        else
          match v with
          | .vstr s =>
            if s.takeRight 3 = "..." then
              filter_valid_statement_rows_go rest acc sent (trunc + 1)
            else
              filter_valid_statement_rows_go rest (row :: acc) (sent + 1) trunc
          | _ => ⟨acc.reverse, sent, trunc, some .typeError⟩

def filter_valid_statement_rows (rows : List PyDict) : FilterResult :=
  filter_valid_statement_rows_go rows [] 0 0

/-! ### Explain engine

Model of _explain_statement and its helpers.  The three extraction
mechanisms are named as in _explain_strategies; the cursor-level behaviour
of each mechanism, and of the USE schema context switch, is supplied by an
oracle.  The shared collection-strategy cache stores either the ERROR
sentinel, the name of a working strategy, or the cached plan-collection
(table, rate) pair, under disjoint string keys. -/
inductive Strategy
  | PROCEDURE
  | FQ_PROCEDURE
  | STATEMENT
  deriving DecidableEq, Repr

/-- Values stored in _collection_strategy_cache. -/
inductive CacheVal
  | explainError
  | strat (s : Strategy)
  | tableRate (table : String) (rate : ℚ)
  deriving DecidableEq, Repr

abbrev StratCache := TTLCache String CacheVal

def VALID_EXPLAIN_STATEMENTS : List String :=
  ["select", "table", "delete", "insert", "replace", "update"]

/-- The default whitespace set of Python str.strip(). -/
def pyIsSpace (c : Char) : Bool :=
  c = ' ' ∨ c = '\t' ∨ c = '\n' ∨ c = '\r' ∨ c = '\x0b' ∨ c = '\x0c'

/-- Python str.strip(): drop whitespace from both ends. -/
def pyStrip (cs : List Char) : List Char :=
  ((cs.dropWhile pyIsSpace).reverse.dropWhile pyIsSpace).reverse

/-- Python str.lower() on the characters that can occur in the compared
    verbs (ASCII). -/
def asciiLower (c : Char) : Char :=
  if 'A' ≤ c ∧ c ≤ 'Z' then Char.ofNat (c.toNat + 32) else c

/-- Model of _can_explain: the statement's first space-separated token,
    after stripping surrounding whitespace and lowercasing, must be one of
    the plan-safe verbs (statement.strip().split(' ', 1)[0].lower()). -/
def can_explain (statement : String) : Bool :=
  VALID_EXPLAIN_STATEMENTS.contains
    (String.mk (((pyStrip statement.data).takeWhile (fun c => c ≠ ' ')).map asciiLower))

def PYMYSQL_NON_RETRYABLE_ERRORS : List Int := [1044, 1046, 1049, 1305, 1370]

/-- Outcome of one cursor-level explain attempt as observed by
    _explain_statement: either the first column of the first fetched row
    (the plan payload, where an empty payload stands for a falsy result),
    or a pymysql DatabaseError carrying a given number of args and an error
    code. -/
inductive AttemptResult
  | plan (p : String)
  | dbError (nargs : Nat) (code : Int)
  deriving DecidableEq, Repr

/-- External database behaviour during one _explain_statement call. -/
structure ExplainOracle where
  useResult : Option (Nat × Int)
  attempt : Strategy → AttemptResult

structure ExplainResult where
  result : Except PyErr (Option String)
  cache : StratCache
  trace : List Strategy
  deriving Repr

/-- The fixed preference order _preferred_explain_strategies. -/
def preferred_explain_strategies : List Strategy :=
  [.PROCEDURE, .FQ_PROCEDURE, .STATEMENT]

/-- The strategy loop of _explain_statement: try each mechanism in order;
    a truthy plan is cached for the schema and returned; a DatabaseError
    with two args marks the schema with the ERROR sentinel when its code is
    non-retryable and in every case moves on to the next mechanism; a
    DatabaseError with a different arity is re-raised. -/
def tryStrategies (orc : ExplainOracle) (key : String) (now : Nat) :
    List Strategy → StratCache →
    Except PyErr (Option String) × StratCache × List Strategy
  | [], cache => (.ok none, cache, [])
  | s :: rest, cache =>
    match orc.attempt s with
    | .plan p =>
      if p ≠ "" then (.ok (some p), cache.insert key (.strat s) now, [s])
      else
        let r := tryStrategies orc key now rest cache
        (r.1, r.2.1, s :: r.2.2)
    | .dbError nargs code =>
      if nargs ≠ 2 then (.error (.databaseError nargs code), cache, [s])
      else
        let cache2 :=
          if PYMYSQL_NON_RETRYABLE_ERRORS.contains code then
            cache.insert key .explainError now
          else cache
        let r := tryStrategies orc key now rest cache2
        (r.1, r.2.1, s :: r.2.2)

/-- The order in which the mechanisms are tried: the cached working
    strategy for the schema, if any, moved to the front of the fixed
    preference list, which otherwise keeps its relative order. -/
def strategyOrder (cache : StratCache) (key : String) (now : Nat) :
    List Strategy :=
  match cache.getAt key now with
  | some (.strat c) => c :: preferred_explain_strategies.erase c
  | _ => preferred_explain_strategies

/-- Model of MySQLStatementSamples._explain_statement.  obf is the external
    datadog_agent.obfuscate_sql (called unprotected at the top for logging);
    the cursor behaviour is the oracle.  Returns the collected plan (or
    none), the updated shared strategy cache, and the list of mechanisms
    actually attempted, in order. -/
def explain_statement (obf : String → Except Unit String) (orc : ExplainOracle)
    (cache : StratCache) (now : Nat) (statement : String) (schema : PyVal) :
    ExplainResult :=
  match obf statement with
  | .error _ => ⟨.error .obfuscationError, cache, []⟩
  | .ok _ =>
    let key := "explain_strategy:" ++ pyStr schema
    if ¬ can_explain statement then ⟨.ok none, cache, []⟩
    else if cache.getAt key now = some .explainError then ⟨.ok none, cache, []⟩
    else
      match (if schema.truthy then orc.useResult else none) with
      | some (nargs, code) =>
        if nargs ≠ 2 then ⟨.error (.databaseError nargs code), cache, []⟩
        else
          let cache2 :=
            if PYMYSQL_NON_RETRYABLE_ERRORS.contains code then
              cache.insert key .explainError now
            else cache
          ⟨.ok none, cache2, []⟩
      | none =>
        let r := tryStrategies orc key now (strategyOrder cache key now) cache
        ⟨r.1, r.2.1, r.2.2⟩

/-! ### Plan collection

Model of _collect_plans_for_statements.  The explain engine is threaded
through an opaque state σ behind the _explain_statement_safe boundary
(that wrapper catches every exception and yields the plan or None); the
obfuscator and the signature functions are external.  An exception raised
by the per-row body (everything outside the single try around the raw-text
obfuscation) aborts the generator; the events already yielded stand. -/
structure EventMeta where
  db_hostname : String
  service : String
  tags_str : String

structure CollectOracles (σ : Type) where
  obfuscate_sql : String → Except Unit String
  obfuscate_sql_exec_plan : String → Bool → String
  compute_sql_signature : String → String
  compute_exec_plan_signature : String → String
  explain_statement_safe : String → PyVal → σ → Option String × σ

/-- Columns already promoted to named event fields and therefore excluded
    from the passthrough mysql map (EVENTS_STATEMENTS_SAMPLE_EXCLUDE_KEYS,
    kept verbatim, including the max_timer_wait_ns name that matches no
    actual column). -/
def EVENTS_STATEMENTS_SAMPLE_EXCLUDE_KEYS : List String :=
  ["sql_text", "current_schema", "digest_text", "timer_end_time_s",
   "max_timer_wait_ns", "timer_start", "processlist_host"]

/-- One emitted statement sample. -/
structure Event where
  timestamp : PyVal
  host : String
  service : String
  ddsource : String
  ddtags : String
  duration : PyVal
  network_client_ip : PyVal
  db_instance : PyVal
  plan_definition : Option String
  plan_cost : Option ℚ
  plan_signature : Option String
  query_signature : String
  resource_hash : String
  statement : String
  mysql_residual : PyDict
  deriving DecidableEq, Repr

/-- The deduplication key of an event in the seen-samples cache. -/
def eventPair (ev : Event) : String × Option String :=
  (ev.query_signature, ev.plan_signature)

/-- Python row[timer_end_time_s] * 1000 (a string operand would be
    replicated, a NULL raises TypeError). -/
def pyMul1000 : PyVal → Except PyErr PyVal
  | .vnum q => .ok (.vnum (q * 1000))
  | .vstr s => .ok (.vstr (String.join (List.replicate 1000 s)))
  | .vnull => .error .typeError

/-- Dedup caches plus the explain engine's own state. -/
structure CollectState (σ : Type) where
  explained : TTLCache String Unit
  seen : TTLCache (String × Option String) Unit
  expl : σ

/-- Result of processing one filtered row. -/
inductive RowOutcome (σ : Type)
  | skipped (st : CollectState σ) (obfErr : Bool)
  | emitted (ev : Event) (st : CollectState σ)
  | raised (e : PyErr) (st : CollectState σ)

/-- The loop body of _collect_plans_for_statements for one filtered row. -/
def process_row {σ : Type} (meta : EventMeta) (orc : CollectOracles σ)
    (now : Nat) (st : CollectState σ) (row : PyDict) : RowOutcome σ :=
  match pyLookup row "sql_text" with
  | some (.vstr sqlText) =>
    match orc.obfuscate_sql sqlText with
    | .error _ => .skipped st true
    | .ok obfuscatedStatement =>
      match pyLookup row "digest_text" with
      | none => .raised .keyError st
      | some (.vstr digestText) =>
        match orc.obfuscate_sql digestText with
        | .error _ => .raised .obfuscationError st
        | .ok obfDigest =>
          let querySignature := orc.compute_sql_signature obfDigest
          let apmResourceHash := orc.compute_sql_signature obfuscatedStatement
          if st.explained.getAt querySignature now = some () then .skipped st false
          else
            let explained2 := st.explained.insert querySignature () now
            match pyLookup row "current_schema" with
            | none => .raised .keyError { st with explained := explained2 }
            | some schemaVal =>
              let pr := orc.explain_statement_safe sqlText schemaVal st.expl
              let st2 : CollectState σ :=
                { explained := explained2, seen := st.seen, expl := pr.2 }
              let planTruthy : Bool :=
                match pr.1 with
                | some p => p ≠ ""
                | none => false
              let costRes : Except PyErr (Option String × Option ℚ × Option String) :=
                match pr.1, planTruthy with
                | some p, true =>
                  let normalizedPlan := orc.obfuscate_sql_exec_plan p true
                  let obfuscatedPlan := orc.obfuscate_sql_exec_plan p false
                  let planSig := orc.compute_exec_plan_signature normalizedPlan
                  match parse_execution_plan_cost p with
                  | .error e => .error e
                  | .ok q => .ok (some obfuscatedPlan, some q, some planSig)
                | _, _ => .ok (none, none, none)
              match costRes with
              | .error e => .raised e st2
              | .ok (planDef, planCost, planSig) =>
                let statementPlanSig := (querySignature, planSig)
                if st2.seen.getAt statementPlanSig now = some () then .skipped st2 false
                else
                  let st3 : CollectState σ :=
                    { st2 with seen := st2.seen.insert statementPlanSig () now }
                  match pyLookup row "timer_end_time_s" with
                  | none => .raised .keyError st3
                  | some te =>
                    match pyMul1000 te with
                    | .error e => .raised e st3
                    | .ok ts =>
                      match pyLookup row "timer_wait_ns" with
                      | none => .raised .keyError st3
                      | some tw =>
                        .emitted
                          { timestamp := ts
                            host := meta.db_hostname
                            service := meta.service
                            ddsource := "mysql"
                            ddtags := meta.tags_str
                            duration := tw
                            network_client_ip :=
                              (pyLookup row "processlist_host").getD .vnull
                            db_instance := schemaVal
                            plan_definition := planDef
                            plan_cost := planCost
                            plan_signature := planSig
                            query_signature := querySignature
                            resource_hash := apmResourceHash
                            statement := obfuscatedStatement
                            mysql_residual :=
                              row.filter (fun kv =>
                                ¬ EVENTS_STATEMENTS_SAMPLE_EXCLUDE_KEYS.contains kv.1) }
                          st3
      | some _ => .raised .typeError st
  | some _ => .skipped st true
  | none => .skipped st true

structure CollectResult (σ : Type) where
  events : List Event
  state : CollectState σ
  obfErrors : Nat
  raised : Option PyErr

/-- Consume the filtered rows one by one; a raised exception aborts the
    iteration, keeping the events emitted so far. -/
def collect_go {σ : Type} (meta : EventMeta) (orc : CollectOracles σ)
    (now : Nat) : List PyDict → CollectState σ → CollectResult σ
  | [], st => ⟨[], st, 0, none⟩
  | row :: rest, st =>
    match process_row meta orc now st row with
    | .skipped st2 obfErr =>
      let r := collect_go meta orc now rest st2
      { r with obfErrors := r.obfErrors + (if obfErr then 1 else 0) }
    | .emitted ev st2 =>
      let r := collect_go meta orc now rest st2
      { r with events := ev :: r.events }
    | .raised e st2 => ⟨[], st2, 0, some e⟩

/-- Model of _collect_plans_for_statements: filter the batch, then process
    each surviving row.  The filter generator's own exception surfaces only
    when the consumer reaches that point of the iteration. -/
def collect_plans_for_statements {σ : Type} (meta : EventMeta)
    (orc : CollectOracles σ) (now : Nat) (st : CollectState σ)
    (rows : List PyDict) : CollectResult σ :=
  let fr := filter_valid_statement_rows rows
  let r := collect_go meta orc now fr.yielded st
  match r.raised with
  | some _ => r
  | none => { r with raised := fr.raised }

/-- A sequence of collection cycles, each at its own wall-clock time, each
    feeding one fetched batch through plan collection; emissions are
    recorded with the cycle time. -/
def run_cycles {σ : Type} (meta : EventMeta) (orc : CollectOracles σ) :
    List (Nat × List PyDict) → CollectState σ →
    List (Nat × Event) × CollectState σ
  | [], st => ([], st)
  | (now, rows) :: rest, st =>
    let r := collect_plans_for_statements meta orc now st rows
    let rr := run_cycles meta orc rest r.state
    (r.events.map (fun ev => (now, ev)) ++ rr.1, rr.2)

/-! ### Strategy selector

Model of _get_sample_collection_strategy: use the cached strategy if one is
live, otherwise walk the preferred tables, skipping tables whose consumer
is not enabled (attempting to enable it only when permitted), probing each
remaining candidate with a 1-row fetch, and choosing the first candidate
whose probe returns a row.  The probe goes through
_get_new_events_statements and therefore moves the shared checkpoint. -/
def EVENTS_STATEMENTS_PREFERRED_TABLES : List String :=
  ["events_statements_history_long", "events_statements_current",
   "events_statements_history"]

/-- Per-table default sampling rates
    (DEFAULT_EVENTS_STATEMENTS_COLLECTIONS_PER_SECOND); only consulted for
    the known table names. -/
def default_collections_per_second (table : String) : ℚ :=
  if table = "events_statements_history_long" then 1 / 10
  else if table = "events_statements_history" then 1 / 10
  else if table = "events_statements_current" then 1
  else 0

structure SelectorConfig where
  auto_enable : Bool
  collections_per_second : ℚ
  preferred_tables : List String

structure SelectorOracle where
  enabled_consumers : List String
  enable_consumer : String → Bool
  fetch : String → Nat → Nat → FetchOutcome

/-- The candidate walk of _get_sample_collection_strategy, threading the
    checkpoint through the probes.  A database error raised by a probe
    propagates out of the selector. -/
def select_table_loop (orcS : SelectorOracle) (auto_enable : Bool) :
    List String → Nat → Except PyErr (Option String) × Nat
  | [], cp => (.ok none, cp)
  | t :: rest, cp =>
    let proceed : Bool :=
      if orcS.enabled_consumers.contains t then true
      else if ¬ auto_enable then false
      else orcS.enable_consumer t
    if ¬ proceed then select_table_loop orcS auto_enable rest cp
    else
      match get_new_events_statements (orcS.fetch t cp 1) cp with
      | (.error e, cp2) => (.error e, cp2)
      | (.ok [], cp2) => select_table_loop orcS auto_enable rest cp2
      | (.ok (_ :: _), cp2) => (.ok (some t), cp2)

structure SelectResult where
  strategy : Option (String × ℚ)
  checkpoint : Nat
  cache : StratCache
  raised : Option PyErr

/-- Model of _get_sample_collection_strategy.  Only successful strategies
    are written back to the cache. -/
def get_sample_collection_strategy (cfg : SelectorConfig) (orcS : SelectorOracle)
    (cache : StratCache) (cp : Nat) (now : Nat) : SelectResult :=
  match cache.getAt "plan_collection_strategy" now with
  | some (.tableRate t r) => ⟨some (t, r), cp, cache, none⟩
  | _ =>
    match select_table_loop orcS cfg.auto_enable cfg.preferred_tables cp with
    | (.error e, cp2) => ⟨none, cp2, cache, some e⟩
    | (.ok none, cp2) => ⟨none, cp2, cache, none⟩
    | (.ok (some t), cp2) =>
      let rate :=
        if cfg.collections_per_second < 0 then default_collections_per_second t
        else cfg.collections_per_second
      ⟨some (t, rate), cp2,
       cache.insert "plan_collection_strategy" (.tableRate t rate) now, none⟩

/-! ### One collection cycle

Model of _collect_statement_samples without its rate limiting and metric
emission: resolve the strategy (a missing strategy makes the cycle a
no-op), run the full incremental fetch on the chosen table, and feed the
batch through filtering and plan collection.  The explain engine's own
state stays behind the σ boundary of the collect oracles; the selector's
writes to the shared strategy cache are under the plan_collection_strategy
key. -/
structure SamplerState (σ : Type) where
  checkpoint : Nat
  stratCache : StratCache
  collect : CollectState σ

structure CycleResult (σ : Type) where
  events : List Event
  state : SamplerState σ
  raised : Option PyErr
  fetchedRows : List StatementRow

def collect_statement_samples {σ : Type} (cfg : SelectorConfig)
    (orcS : SelectorOracle) (meta : EventMeta) (orcC : CollectOracles σ)
    (row_limit : Nat) (st : SamplerState σ) (now : Nat) : CycleResult σ :=
  let sel := get_sample_collection_strategy cfg orcS st.stratCache st.checkpoint now
  match sel.raised with
  | some e => ⟨[], ⟨sel.checkpoint, sel.cache, st.collect⟩, some e, []⟩
  | none =>
    match sel.strategy with
    | none => ⟨[], ⟨sel.checkpoint, sel.cache, st.collect⟩, none, []⟩
    | some (t, _rate) =>
      match get_new_events_statements (orcS.fetch t sel.checkpoint row_limit)
          sel.checkpoint with
      | (.error e, cp2) => ⟨[], ⟨cp2, sel.cache, st.collect⟩, some e, []⟩
      | (.ok rs, cp2) =>
        let r := collect_plans_for_statements meta orcC now st.collect
          (rs.map rowToDict)
        ⟨r.events, ⟨cp2, sel.cache, r.state⟩, r.raised, rs⟩

/-! ### Concrete data for the closed theorems -/

/-- A representative fetched row with the given timer_start. -/
def sampleRow (ts : Nat) : StatementRow :=
  { current_schema := some "orders"
    sql_text := "select id from customers"
    digest_text := "select id from customers"
    timer_start := ts
    timer_end_time_s := 1600000000
    timer_wait_ns := 5000
    lock_time_ns := 100
    rows_affected := 0
    rows_sent := 10
    rows_examined := 10
    select_full_join := 0
    select_full_range_join := 0
    select_range := 0
    select_range_check := 0
    select_scan := 0
    sort_merge_passes := 0
    sort_range := 0
    sort_rows := 0
    sort_scan := 0
    no_index_used := 0
    no_good_index_used := 0
    processlist_user := some "web"
    processlist_host := some "10.0.0.1"
    processlist_db := some "orders" }

/-- A fetched row in which a nullable column came back NULL. -/
def nullFieldRow : StatementRow :=
  { sampleRow 5 with processlist_host := none }

/-! ### Claim theorems -/

/-- C1: the claim says the sample filter rejects any row in which any
    expected field is missing or null.  The code checks not all(row) on a
    DictCursor dict, which iterates over the KEYS, so a row carrying a NULL
    value in a field passes the check and is forwarded: the adjacent debug
    message (Row was unexpectedly truncated ...) documents that the check
    was meant to reject such rows, so this is a slip in the code.  At the
    failing input, a row whose processlist_host is NULL, the filter yields
    the row (its SQL text is non-empty and not truncated). -/
theorem C1_code_bug_null_field_forwarded :
    pyLookup (rowToDict nullFieldRow) "processlist_host" = some .vnull ∧
    filter_valid_statement_rows [rowToDict nullFieldRow] =
      ⟨[rowToDict nullFieldRow], 1, 0, none⟩ := by
  exact ⟨rfl, rfl⟩

/-- C5 helper: a fold with max never goes below its seed. -/
theorem le_foldl_max_timer (a : Nat) (rs : List StatementRow) :
    a ≤ rs.foldl (fun m x => max m x.timer_start) a := by
  induction rs generalizing a with
  | nil => exact Nat.le_refl a
  | cons x xs ih =>
    exact Nat.le_trans (Nat.le_max_left a x.timer_start) (ih (max a x.timer_start))

/-- C5 helper: one fetch never rewinds the checkpoint when the database
    honours the strict timer_start filter. -/
theorem checkpoint_step_mono (cp : Nat) (o : FetchOutcome)
    (h : validOutcome cp o = true) : cp ≤ (get_new_events_statements o cp).2 := by
  cases o with
  | dbError nargs code => exact Nat.le_refl cp
  | rows rs =>
    cases rs with
    | nil => exact Nat.le_refl cp
    | cons r rs =>
      simp only [validOutcome, List.all_cons, Bool.and_eq_true, decide_eq_true_eq,
        List.all_eq_true] at h
      exact Nat.le_trans (Nat.le_of_lt h.1)
        (le_foldl_max_timer r.timer_start rs)

/-- C5: the checkpoint starts at zero and is monotonically non-decreasing
    across any sequence of collection cycles, including empty fetches and
    cycles whose fetch raises; a successful non-empty fetch advances it to
    the maximum timer_start of the returned batch. -/
theorem C5_checkpoint_monotone :
    checkpoint_initial = 0 ∧
    (∀ cp os, validFetchRun cp os = true → cp ≤ run_fetches cp os) ∧
    (∀ cp r rs,
      (get_new_events_statements (.rows (r :: rs)) cp).2 = maxTimerStart (r :: rs)) := by
  refine ⟨rfl, ?_, fun cp r rs => rfl⟩
  intro cp os h
  induction os generalizing cp with
  | nil => exact Nat.le_refl cp
  | cons o os ih =>
    simp only [validFetchRun, Bool.and_eq_true] at h
    exact Nat.le_trans (checkpoint_step_mono cp o h.1)
      (ih (get_new_events_statements o cp).2 h.2)

/-- C5 witness: the monotonicity theorem applied to a concrete three-cycle
    run (a non-empty fetch, a failed fetch, an empty fetch). -/
theorem C5_checkpoint_monotone_witness :
    validFetchRun 0
      [FetchOutcome.rows [sampleRow 5], FetchOutcome.dbError 2 1045,
       FetchOutcome.rows []] = true ∧
    0 ≤ run_fetches 0
      [FetchOutcome.rows [sampleRow 5], FetchOutcome.dbError 2 1045,
       FetchOutcome.rows []] ∧
    (get_new_events_statements (.rows [sampleRow 5]) 0).2 =
      maxTimerStart [sampleRow 5] :=
  ⟨by decide,
   C5_checkpoint_monotone.2.1 0
     [FetchOutcome.rows [sampleRow 5], FetchOutcome.dbError 2 1045,
      FetchOutcome.rows []] (by decide),
   C5_checkpoint_monotone.2.2 0 (sampleRow 5) []⟩

/-- The payload has no nested query_block.cost_info.query_cost value: the
    top level is an object and each present step of the chain is an object
    in which the next step is absent. -/
def noNestedQueryCost : Json → Bool
  | .jobj kvs =>
    match kvs.find? (fun kv => kv.1 = "query_block") with
    | none => true
    | some kv =>
      match kv.2 with
      | .jobj kvs2 =>
        match kvs2.find? (fun kv2 => kv2.1 = "cost_info") with
        | none => true
        | some kv2 =>
          match kv2.2 with
          | .jobj kvs3 => (kvs3.find? (fun kv3 => kv3.1 = "query_cost")).isNone
          | _ => false
      | _ => false
  | _ => false

/-- C4 counterexample: the claim says parsing the plan cost also returns
    0.0, rather than raising, on malformed JSON; at the concrete malformed
    payload the code raises the JSON decode error instead (json.loads is
    called with no exception handler). -/
theorem C4_counterexample_malformed_raises :
    parse_execution_plan_cost "not json" = .error .jsonDecodeError ∧
    parse_execution_plan_cost "not json" ≠ .ok 0 := by
  constructor
  · rfl
  · intro h
    exact Except.noConfusion
      ((rfl : parse_execution_plan_cost "not json" =
          Except.error PyErr.jsonDecodeError).symm.trans h)

/-- C4 (amended): parsing the plan cost returns 0.0 whenever the payload is
    valid JSON whose top-level object carries no nested
    query_block.cost_info.query_cost value (each present step being an
    object); on malformed JSON the parse error propagates instead of
    returning 0.0. -/
theorem C4_plan_cost_amended :
    (∀ s j, jsonLoads s = some j → noNestedQueryCost j = true →
      parse_execution_plan_cost s = .ok 0) ∧
    (∀ s, jsonLoads s = none →
      parse_execution_plan_cost s = .error .jsonDecodeError) := by
  constructor
  · intro s j hl hn
    unfold parse_execution_plan_cost
    rw [hl]
    cases j with
    | jnull => exact Bool.noConfusion hn
    | jbool b => exact Bool.noConfusion hn
    | jnum q => exact Bool.noConfusion hn
    | jstr s2 => exact Bool.noConfusion hn
    | jarr xs => exact Bool.noConfusion hn
    | jobj kvs =>
      cases hf : kvs.find? (fun kv => kv.1 = "query_block") with
      | none => simp [jsonGetDefault, hf, jsonTruthy]
      | some kv =>
        simp only [noNestedQueryCost, hf] at hn
        cases hkv : kv.2 with
        | jobj kvs2 =>
          rw [hkv] at hn
          cases hf2 : kvs2.find? (fun kv2 => kv2.1 = "cost_info") with
          | none => simp [jsonGetDefault, hf, hkv, hf2, jsonTruthy]
          | some kv2 =>
            simp only [hf2] at hn
            cases hkv2 : kv2.2 with
            | jobj kvs3 =>
              simp only [hkv2] at hn
              cases hf3 : kvs3.find? (fun kv3 => kv3.1 = "query_cost") with
              | none => simp [jsonGetDefault, hf, hkv, hf2, hkv2, hf3, jsonTruthy]
              | some kv3 => rw [hf3] at hn; exact Bool.noConfusion hn
            | jnull => rw [hkv2] at hn; exact Bool.noConfusion hn
            | jbool b => rw [hkv2] at hn; exact Bool.noConfusion hn
            | jnum q => rw [hkv2] at hn; exact Bool.noConfusion hn
            | jstr s2 => rw [hkv2] at hn; exact Bool.noConfusion hn
            | jarr xs => rw [hkv2] at hn; exact Bool.noConfusion hn
        | jnull => rw [hkv] at hn; exact Bool.noConfusion hn
        | jbool b => rw [hkv] at hn; exact Bool.noConfusion hn
        | jnum q => rw [hkv] at hn; exact Bool.noConfusion hn
        | jstr s2 => rw [hkv] at hn; exact Bool.noConfusion hn
        | jarr xs => rw [hkv] at hn; exact Bool.noConfusion hn
  · intro s hl
    unfold parse_execution_plan_cost
    rw [hl]

/-- C4 witness: the amended theorem applied to a concrete payload with an
    empty query_block (cost defaults to zero) and to a concrete malformed
    payload (the decode error propagates). -/
theorem C4_plan_cost_amended_witness :
    parse_execution_plan_cost "\x7b\"query_block\": \x7b\x7d\x7d" = .ok 0 ∧
    parse_execution_plan_cost "\x7b" = .error .jsonDecodeError :=
  ⟨C4_plan_cost_amended.1 "\x7b\"query_block\": \x7b\x7d\x7d"
      (Json.jobj [("query_block", Json.jobj [])]) rfl rfl,
   C4_plan_cost_amended.2 "\x7b" rfl⟩

/-! ### Explain-order results (C2, C3) -/

/-- Modelled from the claim of C2 (and the spec sentence it quotes): the
    preference order as the claim states it, direct EXPLAIN first, then the
    definer-scoped procedure, then the fully qualified procedure. -/
def claimedPreferredStrategies : List Strategy :=
  [.STATEMENT, .PROCEDURE, .FQ_PROCEDURE]

/-- An attempt outcome whose DatabaseError, if any, carries exactly two
    args (the arity on which _explain_statement does not re-raise). -/
def attemptTwoArg : AttemptResult → Bool
  | .plan _ => true
  | .dbError nargs _ => nargs = 2

/-- Modelled from the spec: attempt the mechanisms in the given order,
    stopping at the first attempt that yields a truthy plan; errors move on
    to the next mechanism.  Returns the plan found and the attempted
    mechanisms in order. -/
def firstPlanTrace (attempt : Strategy → AttemptResult) :
    List Strategy → Option String × List Strategy
  | [] => (none, [])
  | s :: rest =>
    match attempt s with
    | .plan p =>
      if p ≠ "" then (some p, [s])
      else
        let r := firstPlanTrace attempt rest
        (r.1, s :: r.2)
    | .dbError _ _ =>
      let r := firstPlanTrace attempt rest
      (r.1, s :: r.2)

/-- The strategy loop refines the first-success walk: when no attempt
    raises a DatabaseError of unexpected arity, the loop returns exactly
    the plan of the first successful mechanism and attempts exactly the
    prefix of the order up to and including it. -/
theorem tryStrategies_refines_firstPlanTrace (orc : ExplainOracle)
    (key : String) (now : Nat) (strategies : List Strategy)
    (cache : StratCache) (h : ∀ s, attemptTwoArg (orc.attempt s) = true) :
    (tryStrategies orc key now strategies cache).1 =
      Except.ok (firstPlanTrace orc.attempt strategies).1 ∧
    (tryStrategies orc key now strategies cache).2.2 =
      (firstPlanTrace orc.attempt strategies).2 := by
  induction strategies generalizing cache with
  | nil => exact ⟨rfl, rfl⟩
  | cons s rest ih =>
    cases hat : orc.attempt s with
    | plan p =>
      by_cases hp : p = ""
      · subst hp
        simp only [tryStrategies, firstPlanTrace, hat, ne_eq, not_true_eq_false,
          if_false]
        exact ⟨(ih cache).1, congrArg (List.cons s) (ih cache).2⟩
      · simp [tryStrategies, firstPlanTrace, hat, hp]
    | dbError nargs code =>
      have h2 := h s
      rw [hat] at h2
      simp only [attemptTwoArg, decide_eq_true_eq] at h2
      subst h2
      simp only [tryStrategies, firstPlanTrace, hat, ne_eq, not_true_eq_false,
        if_false, reduceIte]
      by_cases hc : PYMYSQL_NON_RETRYABLE_ERRORS.contains code = true
      · simp only [hc, if_true]
        refine ⟨(ih _).1, congrArg (List.cons s) (ih _).2⟩
      · simp only [Bool.not_eq_true] at hc
        simp only [hc, Bool.false_eq_true, if_false]
        refine ⟨(ih _).1, congrArg (List.cons s) (ih _).2⟩

theorem find?_append_of_none {α : Type} (p : α → Bool) (l1 l2 : List α)
    (h : ∀ x ∈ l1, p x = false) :
    (l1 ++ l2).find? p = l2.find? p := by
  induction l1 with
  | nil => rfl
  | cons x xs ih =>
    simp only [List.cons_append, List.find?]
    rw [h x (List.mem_cons_self x xs)]
    exact ih (fun y hy => h y (List.mem_cons_of_mem x hy))

/-- After an insert, the inserted key reads back its value for the whole
    TTL window of the insert time. -/
theorem getAt_insert_self {K V : Type} [DecidableEq K] (c : TTLCache K V)
    (k : K) (v : V) (now t2 : Nat) (h2 : t2 ≤ now + c.ttl) :
    (c.insert k v now).getAt k t2 = some v := by
  have hrest : ∀ e ∈ ((c.expire now).entries.filter (fun e => ¬ (e.1 = k))),
      (fun e : K × V × Nat => decide (e.1 = k)) e = false := by
    intro e he
    have hne : ¬ (e.1 = k) := by simpa using List.of_mem_filter he
    exact decide_eq_false hne
  have hdrop : ∀ n, ∀ e ∈ ((c.expire now).entries.filter
      (fun e => ¬ (e.1 = k))).drop n,
      (fun e : K × V × Nat => decide (e.1 = k)) e = false := by
    intro n e he
    exact hrest e (List.mem_of_mem_drop he)
  have hsing : List.find? (fun e : K × V × Nat => e.1 = k) [(k, v, now)] =
      some (k, v, now) := by
    simp [List.find?]
  simp only [TTLCache.insert, TTLCache.getAt]
  by_cases hpres : (c.expire now).entries.any (fun e => e.1 = k) = true
  · simp only [hpres, if_true]
    rw [find?_append_of_none _ _ _ hrest, hsing]
    exact if_pos h2
  · simp only [hpres, Bool.false_eq_true, if_false]
    rw [find?_append_of_none _ _ _ (hdrop _), hsing]
    exact if_pos h2

def obfId : String → Except Unit String := fun s => .ok s

/-- Every mechanism fails with a retryable two-arg DatabaseError. -/
def orcAllRetryable : ExplainOracle :=
  { useResult := none, attempt := fun _ => .dbError 2 9999 }

/-- The first mechanism fails with the non-retryable code 1305, the later
    mechanisms with a retryable code. -/
def orcNonRetryableFirst : ExplainOracle :=
  { useResult := none
    attempt := fun s =>
      match s with
      | .PROCEDURE => .dbError 2 1305
      | _ => .dbError 2 9999 }

/-- The strategy cache as freshly built in __init__ (default maxsize 1000,
    default ttl 300). -/
def emptyStratCache : StratCache := TTLCache.empty String CacheVal 1000 300

/-- C2 counterexample: with no cached strategy for the schema and every
    mechanism failing with a retryable error, the call attempts PROCEDURE,
    then FQ_PROCEDURE, then STATEMENT; the claimed order, with the direct
    EXPLAIN first, is a different list. -/
theorem C2_counterexample_explain_order :
    (explain_statement obfId orcAllRetryable emptyStratCache 0
        "select id from customers" (.vstr "orders")).trace =
      [.PROCEDURE, .FQ_PROCEDURE, .STATEMENT] ∧
    claimedPreferredStrategies = [.STATEMENT, .PROCEDURE, .FQ_PROCEDURE] ∧
    [Strategy.PROCEDURE, .FQ_PROCEDURE, .STATEMENT] ≠ claimedPreferredStrategies := by
  exact ⟨rfl, rfl, by decide⟩

/-- C2 (amended): the mechanisms are attempted in the fixed preference
    order definer-scoped procedure, fully-qualified procedure, direct
    EXPLAIN, stopping at the first that returns a truthy plan; a cached
    working strategy for the schema is tried first and the remaining
    mechanisms follow in that same relative order. -/
theorem C2_explain_order_amended :
    preferred_explain_strategies =
      [.PROCEDURE, .FQ_PROCEDURE, .STATEMENT] ∧
    (∀ cache key c now, cache.getAt key now = some (.strat c) →
      strategyOrder cache key now = c :: preferred_explain_strategies.erase c) ∧
    (∀ cache key now, cache.getAt key now = none →
      strategyOrder cache key now = preferred_explain_strategies) ∧
    (∀ obf orc cache now statement schema os,
      obf statement = .ok os →
      (∀ s, attemptTwoArg (orc.attempt s) = true) →
      can_explain statement = true →
      cache.getAt ("explain_strategy:" ++ pyStr schema) now ≠ some .explainError →
      (schema.truthy = true → orc.useResult = none) →
      (explain_statement obf orc cache now statement schema).result =
        Except.ok (firstPlanTrace orc.attempt
          (strategyOrder cache ("explain_strategy:" ++ pyStr schema) now)).1 ∧
      (explain_statement obf orc cache now statement schema).trace =
        (firstPlanTrace orc.attempt
          (strategyOrder cache ("explain_strategy:" ++ pyStr schema) now)).2) := by
  refine ⟨rfl, ?_, ?_, ?_⟩
  · intro cache key c now h
    unfold strategyOrder
    rw [h]
  · intro cache key now h
    unfold strategyOrder
    rw [h]
  · intro obf orc cache now statement schema os hobf h2a hcan herr huse
    unfold explain_statement
    rw [hobf]
    simp only [hcan, Bool.true_eq_false, not_true_eq_false, if_false, if_neg herr,
      Bool.not_eq_true, reduceIte]
    cases htr : schema.truthy with
    | false =>
      simp only [htr, Bool.false_eq_true, if_false]
      exact tryStrategies_refines_firstPlanTrace orc _ now _ cache h2a
    | true =>
      simp only [htr, if_true, huse htr]
      exact tryStrategies_refines_firstPlanTrace orc _ now _ cache h2a

/-- An oracle for the amended-order witness: the definer procedure returns
    a falsy plan, the fully qualified procedure fails retryably, and the
    direct EXPLAIN returns a plan. -/
def orcMixed : ExplainOracle :=
  { useResult := none
    attempt := fun s =>
      match s with
      | .PROCEDURE => .plan ""
      | .FQ_PROCEDURE => .dbError 2 9999
      | .STATEMENT => .plan "PLANJSON" }

/-- C2 witness: the amended theorem applied to a concrete oracle with no
    cached strategy, recovering the full walk PROCEDURE, FQ_PROCEDURE,
    STATEMENT and the plan produced by the final mechanism. -/
theorem C2_explain_order_amended_witness :
    (explain_statement obfId orcMixed emptyStratCache 0
        "select id from customers" .vnull).result = Except.ok (some "PLANJSON") ∧
    (explain_statement obfId orcMixed emptyStratCache 0
        "select id from customers" .vnull).trace =
      [.PROCEDURE, .FQ_PROCEDURE, .STATEMENT] := by
  have h := C2_explain_order_amended.2.2.2 obfId orcMixed emptyStratCache 0
    "select id from customers" .vnull "select id from customers" rfl
    (by intro s; cases s <;> rfl) (by decide) (by decide)
    (fun h => Bool.noConfusion h)
  exact ⟨h.1.trans rfl, h.2.trans rfl⟩

/-- C3 counterexample: the code of _explain_statement continues with the
    remaining mechanisms of the same call after a mechanism raises a
    non-retryable error; here the first mechanism raises the non-retryable
    code 1305, yet two further mechanisms are attempted for the same
    statement of the same schema, within the freshly written cache entry's
    TTL window. -/
theorem C3_counterexample_attempts_continue :
    PYMYSQL_NON_RETRYABLE_ERRORS.contains 1305 = true ∧
    orcNonRetryableFirst.attempt .PROCEDURE = .dbError 2 1305 ∧
    (explain_statement obfId orcNonRetryableFirst emptyStratCache 0
        "select id from customers" (.vstr "orders")).trace =
      [.PROCEDURE, .FQ_PROCEDURE, .STATEMENT] := by
  exact ⟨by decide, rfl, rfl⟩

/-- A USE schema context switch failing with the non-retryable code 1049
    (unknown database), every mechanism retryable. -/
def orcUseFail : ExplainOracle :=
  { useResult := some (2, 1049), attempt := fun _ => .dbError 2 9999 }

/-- C3 (amended): a non-retryable database error during the schema context
    switch writes the permanently-failing sentinel, ends the call with no
    mechanism attempted, and while the sentinel entry is live (through the
    end of its TTL window) every later call for that schema attempts no
    mechanism; a non-retryable error during a mechanism attempt also writes
    the sentinel, but the remaining mechanisms of the same call are still
    attempted before the sentinel takes effect for later calls. -/
theorem C3_schema_disqualification_amended :
    (∀ obf orc cache now statement schema,
      cache.getAt ("explain_strategy:" ++ pyStr schema) now = some .explainError →
      (explain_statement obf orc cache now statement schema).trace = [] ∧
      (explain_statement obf orc cache now statement schema).cache = cache) ∧
    (∀ obf orc cache now statement schema os nargs code,
      obf statement = .ok os →
      can_explain statement = true →
      cache.getAt ("explain_strategy:" ++ pyStr schema) now ≠ some .explainError →
      schema.truthy = true →
      orc.useResult = some (nargs, code) →
      nargs = 2 →
      PYMYSQL_NON_RETRYABLE_ERRORS.contains code = true →
      (explain_statement obf orc cache now statement schema).trace = [] ∧
      (∀ t2, now ≤ t2 → t2 ≤ now + cache.ttl →
        (explain_statement obf orc cache now statement schema).cache.getAt
          ("explain_strategy:" ++ pyStr schema) t2 = some .explainError)) ∧
    (∀ obf orc cache now statement schema os c1 c2 c3,
      obf statement = .ok os →
      can_explain statement = true →
      cache.getAt ("explain_strategy:" ++ pyStr schema) now = none →
      (schema.truthy = true → orc.useResult = none) →
      orc.attempt .PROCEDURE = .dbError 2 c1 →
      PYMYSQL_NON_RETRYABLE_ERRORS.contains c1 = true →
      orc.attempt .FQ_PROCEDURE = .dbError 2 c2 →
      PYMYSQL_NON_RETRYABLE_ERRORS.contains c2 = false →
      orc.attempt .STATEMENT = .dbError 2 c3 →
      PYMYSQL_NON_RETRYABLE_ERRORS.contains c3 = false →
      (explain_statement obf orc cache now statement schema).trace =
        [.PROCEDURE, .FQ_PROCEDURE, .STATEMENT] ∧
      (∀ t2, now ≤ t2 → t2 ≤ now + cache.ttl →
        (explain_statement obf orc cache now statement schema).cache.getAt
          ("explain_strategy:" ++ pyStr schema) t2 = some .explainError)) := by
  refine ⟨?_, ?_, ?_⟩
  · intro obf orc cache now statement schema h
    unfold explain_statement
    cases hobf : obf statement with
    | error e => exact ⟨rfl, rfl⟩
    | ok os =>
      by_cases hcan : can_explain statement = true
      · rw [if_neg (by simp [hcan]), if_pos h]
        exact ⟨rfl, rfl⟩
      · rw [if_pos (by simp [hcan])]
        exact ⟨rfl, rfl⟩
  · intro obf orc cache now statement schema os nargs code hobf hcan herr htr huse hn hnr
    subst hn
    have hres : explain_statement obf orc cache now statement schema =
        ⟨.ok none,
         cache.insert ("explain_strategy:" ++ pyStr schema) .explainError now,
         []⟩ := by
      unfold explain_statement
      rw [hobf, if_neg (by simp [hcan]), if_neg herr, htr, huse]
      simp only [ne_eq, not_true_eq_false, if_false, hnr, if_true, reduceIte]
    rw [hres]
    exact ⟨rfl, fun t2 _h1 h3 => getAt_insert_self cache _ _ now t2 h3⟩
  · intro obf orc cache now statement schema os c1 c2 c3 hobf hcan hnone huse
      hP hc1 hFQ hc2 hS hc3
    have horder : strategyOrder cache ("explain_strategy:" ++ pyStr schema) now =
        [.PROCEDURE, .FQ_PROCEDURE, .STATEMENT] := by
      unfold strategyOrder
      rw [hnone]
      rfl
    have hres : explain_statement obf orc cache now statement schema =
        ⟨.ok none,
         cache.insert ("explain_strategy:" ++ pyStr schema) .explainError now,
         [.PROCEDURE, .FQ_PROCEDURE, .STATEMENT]⟩ := by
      unfold explain_statement
      rw [hobf, if_neg (by simp [hcan]), if_neg (by rw [hnone]; intro hx; exact Option.noConfusion hx)]
      have huse2 : (if schema.truthy then orc.useResult else none) = none := by
        cases htr : schema.truthy with
        | true => rw [if_pos rfl]; exact huse htr
        | false => rfl
      rw [huse2, horder]
      simp only [tryStrategies, hP, hFQ, hS, hc1, hc2, hc3, ne_eq,
        not_true_eq_false, if_false, if_true, Bool.false_eq_true, reduceIte]
    rw [hres]
    exact ⟨rfl, fun t2 _h1 h3 => getAt_insert_self cache _ _ now t2 h3⟩

/-- C3 witness: the amended theorem applied to concrete oracles.  A
    non-retryable context-switch failure at time 0 attempts no mechanism
    and blocks a second call at time 300 (the cache TTL end) for the same
    schema; a non-retryable first mechanism still lets the same call walk
    all three mechanisms. -/
theorem C3_schema_disqualification_amended_witness :
    (explain_statement obfId orcUseFail emptyStratCache 0
        "select id from customers" (.vstr "orders")).trace = [] ∧
    (explain_statement obfId orcAllRetryable
        ((explain_statement obfId orcUseFail emptyStratCache 0
          "select id from customers" (.vstr "orders")).cache) 300
        "update t set a = 1" (.vstr "orders")).trace = [] ∧
    (explain_statement obfId orcNonRetryableFirst emptyStratCache 0
        "select id from customers" .vnull).trace =
      [.PROCEDURE, .FQ_PROCEDURE, .STATEMENT] := by
  have h2 := C3_schema_disqualification_amended.2.1 obfId orcUseFail
    emptyStratCache 0 "select id from customers" (.vstr "orders")
    "select id from customers" 2 1049 rfl (by decide) (by decide) (by decide)
    rfl rfl (by decide)
  have hblock := h2.2 300 (by decide) (by decide)
  have h1 := C3_schema_disqualification_amended.1 obfId orcAllRetryable
    ((explain_statement obfId orcUseFail emptyStratCache 0
      "select id from customers" (.vstr "orders")).cache) 300
    "update t set a = 1" (.vstr "orders") hblock
  have h3 := C3_schema_disqualification_amended.2.2 obfId orcNonRetryableFirst
    emptyStratCache 0 "select id from customers" .vnull
    "select id from customers" 1305 9999 9999 rfl (by decide) rfl
    (fun h => Bool.noConfusion h) rfl (by decide) rfl (by decide) rfl (by decide)
  exact ⟨h2.1, h1.1, h3.1⟩

/-! ### Obfuscation-failure results (C6) -/

def metaW : EventMeta :=
  { db_hostname := "db1", service := "mysql", tags_str := "env:test" }

/-- An obfuscator that fails exactly on the digest text DIGFAIL; the
    explain engine finds no plan. -/
def orcObfDigestFail : CollectOracles Unit :=
  { obfuscate_sql := fun s => if s = "DIGFAIL" then .error () else .ok s
    obfuscate_sql_exec_plan := fun p _ => p
    compute_sql_signature := fun s => s
    compute_exec_plan_signature := fun p => p
    explain_statement_safe := fun _ _ u => (none, u) }

def rowDigestFail : StatementRow :=
  { sampleRow 5 with digest_text := "DIGFAIL" }

/-- The dedup caches as freshly built in __init__ (default sizes and
    default TTL-derived rates: 3600/60 and 3600/15 seconds). -/
def freshCollectState : CollectState Unit :=
  { explained := TTLCache.empty String Unit 5000 60
    seen := TTLCache.empty (String × Option String) Unit 10000 240
    expl := () }

/-- C6 counterexample: the claim says an obfuscator failure on either the
    raw SQL text or the digest text skips only that row, counts an
    obfuscation error, and lets the cycle continue.  At this concrete
    batch the obfuscator fails on the first row's digest text: the call to
    the obfuscator on the digest is outside the try block, so the
    exception escapes the per-row processing, the second row is never
    processed, and no obfuscation error is counted. -/
theorem C6_counterexample_digest_failure_escapes :
    (collect_plans_for_statements metaW orcObfDigestFail 0 freshCollectState
      [rowToDict rowDigestFail, rowToDict (sampleRow 6)]).raised =
      some .obfuscationError ∧
    (collect_plans_for_statements metaW orcObfDigestFail 0 freshCollectState
      [rowToDict rowDigestFail, rowToDict (sampleRow 6)]).events = [] ∧
    (collect_plans_for_statements metaW orcObfDigestFail 0 freshCollectState
      [rowToDict rowDigestFail, rowToDict (sampleRow 6)]).obfErrors = 0 := by
  exact ⟨rfl, rfl, rfl⟩

/-- C6 (amended): an obfuscator failure on the raw SQL text causes only
    that row to be skipped, one obfuscation error to be counted, and the
    cycle to continue with the remaining rows; an obfuscator failure on
    the digest text is not contained: it escapes the per-row processing,
    ending the cycle with the events already emitted, the remaining rows
    unprocessed, and no obfuscation error counted. -/
theorem C6_obfuscation_failures_amended :
    (∀ (σ : Type) (meta : EventMeta) (orc : CollectOracles σ) (now : Nat)
      (st : CollectState σ) (row : PyDict) (rest : List PyDict) (s : String),
      pyLookup row "sql_text" = some (.vstr s) →
      orc.obfuscate_sql s = .error () →
      process_row meta orc now st row = .skipped st true ∧
      collect_go meta orc now (row :: rest) st =
        { collect_go meta orc now rest st with
          obfErrors := (collect_go meta orc now rest st).obfErrors + 1 }) ∧
    (∀ (σ : Type) (meta : EventMeta) (orc : CollectOracles σ) (now : Nat)
      (st : CollectState σ) (row : PyDict) (rest : List PyDict)
      (s os dt : String),
      pyLookup row "sql_text" = some (.vstr s) →
      orc.obfuscate_sql s = .ok os →
      pyLookup row "digest_text" = some (.vstr dt) →
      orc.obfuscate_sql dt = .error () →
      process_row meta orc now st row = .raised .obfuscationError st ∧
      collect_go meta orc now (row :: rest) st =
        ⟨[], st, 0, some .obfuscationError⟩) := by
  constructor
  · intro σ meta orc now st row rest s hsql hobf
    have hpr : process_row meta orc now st row = .skipped st true := by
      simp only [process_row, hsql, hobf]
    refine ⟨hpr, ?_⟩
    simp only [collect_go, hpr, if_true]
  · intro σ meta orc now st row rest s os dt hsql hobf hdig hobf2
    have hpr : process_row meta orc now st row = .raised .obfuscationError st := by
      simp only [process_row, hsql, hobf, hdig, hobf2]
    refine ⟨hpr, ?_⟩
    simp only [collect_go, hpr]

/-- A raw-text obfuscation failure for the witness. -/
def orcObfSqlFail : CollectOracles Unit :=
  { obfuscate_sql := fun s => if s = "select id from customers" then .error () else .ok s
    obfuscate_sql_exec_plan := fun p _ => p
    compute_sql_signature := fun s => s
    compute_exec_plan_signature := fun p => p
    explain_statement_safe := fun _ _ u => (none, u) }

/-- C6 witness: the amended theorem applied to concrete batches for both
    failure sites. -/
theorem C6_obfuscation_failures_amended_witness :
    process_row metaW orcObfSqlFail 0 freshCollectState
      (rowToDict (sampleRow 5)) = .skipped freshCollectState true ∧
    process_row metaW orcObfDigestFail 0 freshCollectState
      (rowToDict rowDigestFail) = .raised .obfuscationError freshCollectState := by
  have h1 := C6_obfuscation_failures_amended.1 Unit metaW orcObfSqlFail 0
    freshCollectState (rowToDict (sampleRow 5)) [] "select id from customers"
    rfl rfl
  have h2 := C6_obfuscation_failures_amended.2 Unit metaW orcObfDigestFail 0
    freshCollectState (rowToDict rowDigestFail) [] "select id from customers"
    "select id from customers" "DIGFAIL" rfl rfl rfl rfl
  exact ⟨h1.1, h2.1⟩

/-! ### Strategy-selector results (C7) -/

/-- Modelled from the claim of C7 (and the spec sentence it quotes): the
    table preference order as the claim states it, long-history first and
    the current-activity table last. -/
def claimedPreferredTables : List String :=
  ["events_statements_history_long", "events_statements_history",
   "events_statements_current"]

/-- A candidate table qualifies at a given checkpoint: its consumer is
    enabled (or auto-enabling is permitted and succeeds) and its 1-row
    probe returns at least one row. -/
def qualifies (orcS : SelectorOracle) (auto_enable : Bool) (cp : Nat)
    (t : String) : Bool :=
  (orcS.enabled_consumers.contains t ||
    (auto_enable && orcS.enable_consumer t)) &&
  (match orcS.fetch t cp 1 with
   | .rows (_ :: _) => true
   | _ => false)

def isRowsOutcome : FetchOutcome → Bool
  | .rows _ => true
  | .dbError _ _ => false

/-- The candidate walk returns the first table of the list that qualifies,
    when no probe raises a database error. -/
theorem select_table_loop_eq_find (orcS : SelectorOracle) (auto_enable : Bool)
    (tables : List String) (cp : Nat)
    (hnoerr : ∀ t ∈ tables, isRowsOutcome (orcS.fetch t cp 1) = true) :
    (select_table_loop orcS auto_enable tables cp).1 =
      Except.ok (tables.find? (qualifies orcS auto_enable cp)) := by
  induction tables with
  | nil => rfl
  | cons t rest ih =>
    have hnr : ∀ u ∈ rest, isRowsOutcome (orcS.fetch u cp 1) = true :=
      fun u hu => hnoerr u (List.mem_cons_of_mem t hu)
    have hproceed :
        (if orcS.enabled_consumers.contains t then true
         else if ¬ auto_enable then false else orcS.enable_consumer t) =
        (orcS.enabled_consumers.contains t ||
          (auto_enable && orcS.enable_consumer t)) := by
      cases hc : orcS.enabled_consumers.contains t with
      | true => rfl
      | false =>
        cases ha : auto_enable with
        | true => simp
        | false => simp
    cases hfetch : orcS.fetch t cp 1 with
    | dbError nargs code =>
      have := hnoerr t (List.mem_cons_self t rest)
      rw [hfetch] at this
      exact Bool.noConfusion this
    | rows rs =>
      simp only [select_table_loop, List.find?, qualifies, hfetch, hproceed]
      cases hp : (orcS.enabled_consumers.contains t ||
          (auto_enable && orcS.enable_consumer t)) with
      | false =>
        simp only [Bool.false_and, Bool.false_eq_true, if_false]
        exact ih hnr
      | true =>
        simp only [Bool.true_and, if_true, Bool.not_true, Bool.false_eq_true]
        cases rs with
        | nil =>
          simp only [get_new_events_statements]
          exact ih hnr
        | cons r rs2 => rfl

/-- Unfolding of the candidate walk when the head candidate proceeds to
    its probe. -/
theorem select_table_loop_cons_proceed (orcS : SelectorOracle)
    (auto_enable : Bool) (u : String) (rest : List String) (cp : Nat)
    (hp : (if orcS.enabled_consumers.contains u then true
           else if ¬ auto_enable then false else orcS.enable_consumer u) = true) :
    select_table_loop orcS auto_enable (u :: rest) cp =
      (match get_new_events_statements (orcS.fetch u cp 1) cp with
       | (.error e, cp2) => (.error e, cp2)
       | (.ok [], cp2) => select_table_loop orcS auto_enable rest cp2
       | (.ok (_ :: _), cp2) => (.ok (some u), cp2)) := by
  simp only [select_table_loop]
  rw [hp]
  simp

/-- Unfolding of the candidate walk when the head candidate is skipped. -/
theorem select_table_loop_cons_skip (orcS : SelectorOracle)
    (auto_enable : Bool) (u : String) (rest : List String) (cp : Nat)
    (hp : (if orcS.enabled_consumers.contains u then true
           else if ¬ auto_enable then false else orcS.enable_consumer u) = false) :
    select_table_loop orcS auto_enable (u :: rest) cp =
      select_table_loop orcS auto_enable rest cp := by
  simp only [select_table_loop]
  rw [hp]
  simp

/-- When the walk chooses a table, its probe ran against the entry
    checkpoint (the skipped candidates left it unchanged), returned a
    non-empty batch, and the checkpoint advanced to that batch's maximum
    timer_start. -/
theorem select_table_loop_checkpoint (orcS : SelectorOracle)
    (auto_enable : Bool) (tables : List String) (cp : Nat) (t : String)
    (h : (select_table_loop orcS auto_enable tables cp).1 = .ok (some t)) :
    ∃ r rs, orcS.fetch t cp 1 = .rows (r :: rs) ∧
      (select_table_loop orcS auto_enable tables cp).2 =
        maxTimerStart (r :: rs) := by
  induction tables with
  | nil => exact Option.noConfusion (Except.ok.inj h)
  | cons u rest ih =>
    cases hp : (if orcS.enabled_consumers.contains u then true
        else if ¬ auto_enable then false else orcS.enable_consumer u) with
    | false =>
      rw [select_table_loop_cons_skip orcS auto_enable u rest cp hp] at h ⊢
      exact ih h
    | true =>
      rw [select_table_loop_cons_proceed orcS auto_enable u rest cp hp] at h ⊢
      cases hfetch : orcS.fetch u cp 1 with
      | dbError nargs code =>
        rw [hfetch] at h
        exact Except.noConfusion h
      | rows rs =>
        cases rs with
        | nil =>
          rw [hfetch] at h
          exact ih h
        | cons r rs2 =>
          rw [hfetch] at h
          have hu : u = t := Option.some.inj (Except.ok.inj h)
          subst hu
          exact ⟨r, rs2, hfetch, rfl⟩

def cfgC7 : SelectorConfig :=
  { auto_enable := false
    collections_per_second := -1
    preferred_tables := EVENTS_STATEMENTS_PREFERRED_TABLES }

def cfgC7claimed : SelectorConfig :=
  { cfgC7 with preferred_tables := claimedPreferredTables }

/-- The long-history consumer is disabled; the current and plain history
    tables are enabled and populated. -/
def orcSelC7 : SelectorOracle :=
  { enabled_consumers := ["events_statements_current", "events_statements_history"]
    enable_consumer := fun _ => false
    fetch := fun _ cp _ => .rows [sampleRow (cp + 1)] }

/-- C7 counterexample: with the current and plain history tables both
    enabled and populated, the code chooses events_statements_current
    (second in the actual preference order), while a walk in the claimed
    order, with the current-activity table last, would choose
    events_statements_history; the two orders are different lists. -/
theorem C7_counterexample_table_order :
    (get_sample_collection_strategy cfgC7 orcSelC7 emptyStratCache 0 0).strategy =
      some ("events_statements_current", 1) ∧
    (get_sample_collection_strategy cfgC7claimed orcSelC7 emptyStratCache 0 0).strategy =
      some ("events_statements_history", 1 / 10) ∧
    EVENTS_STATEMENTS_PREFERRED_TABLES ≠ claimedPreferredTables := by
  exact ⟨rfl, rfl, by decide⟩

/-- C7 (amended): with no cached strategy, selection returns the first
    table of the fixed preference order long-history, current-activity,
    plain history that is enabled (or successfully auto-enabled) and whose
    1-row probe returns at least one row, paired with the configured rate
    override when positive, else the table's default rate; in particular,
    if the long-history table is enabled but empty and the current-activity
    table is enabled with rows, the current-activity table is chosen. -/
theorem C7_strategy_selection_amended :
    EVENTS_STATEMENTS_PREFERRED_TABLES =
      ["events_statements_history_long", "events_statements_current",
       "events_statements_history"] ∧
    (∀ cfg orcS cache cp now,
      cache.getAt "plan_collection_strategy" now = none →
      (∀ t ∈ cfg.preferred_tables, isRowsOutcome (orcS.fetch t cp 1) = true) →
      (get_sample_collection_strategy cfg orcS cache cp now).strategy =
        (cfg.preferred_tables.find? (qualifies orcS cfg.auto_enable cp)).map
          (fun t => (t,
            if cfg.collections_per_second < 0
            then default_collections_per_second t
            else cfg.collections_per_second))) ∧
    (∀ cfg orcS cache cp now r rs,
      cache.getAt "plan_collection_strategy" now = none →
      cfg.preferred_tables = EVENTS_STATEMENTS_PREFERRED_TABLES →
      (∀ t ∈ cfg.preferred_tables, isRowsOutcome (orcS.fetch t cp 1) = true) →
      orcS.enabled_consumers.contains "events_statements_history_long" = true →
      orcS.fetch "events_statements_history_long" cp 1 = .rows [] →
      orcS.enabled_consumers.contains "events_statements_current" = true →
      orcS.fetch "events_statements_current" cp 1 = .rows (r :: rs) →
      (get_sample_collection_strategy cfg orcS cache cp now).strategy =
        some ("events_statements_current",
          if cfg.collections_per_second < 0 then 1
          else cfg.collections_per_second)) := by
  have hmain : ∀ (cfg : SelectorConfig) (orcS : SelectorOracle)
      (cache : StratCache) (cp now : Nat),
      cache.getAt "plan_collection_strategy" now = none →
      (∀ t ∈ cfg.preferred_tables, isRowsOutcome (orcS.fetch t cp 1) = true) →
      (get_sample_collection_strategy cfg orcS cache cp now).strategy =
        (cfg.preferred_tables.find? (qualifies orcS cfg.auto_enable cp)).map
          (fun t => (t,
            if cfg.collections_per_second < 0
            then default_collections_per_second t
            else cfg.collections_per_second)) := by
    intro cfg orcS cache cp now hmiss hnoerr
    have hfind := select_table_loop_eq_find orcS cfg.auto_enable
      cfg.preferred_tables cp hnoerr
    unfold get_sample_collection_strategy
    rw [hmiss]
    cases hsl : select_table_loop orcS cfg.auto_enable cfg.preferred_tables cp with
    | mk fst snd =>
      rw [hsl] at hfind
      simp only at hfind
      subst hfind
      cases hf : cfg.preferred_tables.find? (qualifies orcS cfg.auto_enable cp) with
      | none => rfl
      | some t => rfl
  refine ⟨rfl, hmain, ?_⟩
  intro cfg orcS cache cp now r rs hmiss hpref hnoerr hHLen hHLfetch hCUen hCUfetch
  rw [hmain cfg orcS cache cp now hmiss hnoerr]
  rw [hpref]
  have hq1 : qualifies orcS cfg.auto_enable cp "events_statements_history_long" = false := by
    simp only [qualifies, hHLfetch, Bool.and_false]
  have hq2 : qualifies orcS cfg.auto_enable cp "events_statements_current" = true := by
    simp only [qualifies, hCUfetch, hCUen, Bool.true_or, Bool.true_and]
  simp only [EVENTS_STATEMENTS_PREFERRED_TABLES, List.find?, hq1, hq2]
  simp only [Option.map_some']
  by_cases hlt : cfg.collections_per_second < 0
  · rw [if_pos hlt, if_pos hlt]
    rfl
  · rw [if_neg hlt, if_neg hlt]

/-- The long-history table is enabled but empty; the current table is
    enabled and populated. -/
def orcSelC7w : SelectorOracle :=
  { enabled_consumers := ["events_statements_history_long", "events_statements_current"]
    enable_consumer := fun _ => false
    fetch := fun t cp _ =>
      if t = "events_statements_history_long" then .rows []
      else .rows [sampleRow (cp + 1)] }

/-- C7 witness: the amended theorem applied to a concrete oracle in which
    the long-history table is enabled but empty and the current table is
    enabled with one row. -/
theorem C7_strategy_selection_amended_witness :
    (get_sample_collection_strategy cfgC7 orcSelC7w emptyStratCache 0 0).strategy =
      some ("events_statements_current", 1) := by
  have h := C7_strategy_selection_amended.2.2 cfgC7 orcSelC7w emptyStratCache 0 0
    (sampleRow 1) [] rfl rfl (by decide) (by decide) rfl (by decide) rfl
  rw [h]
  rfl

/-! ### Provenance of emitted events (towards C10) -/

/-- The fields of an event that are copied verbatim from its source row. -/
def EventOfRow (d : PyDict) (ev : Event) : Prop :=
  ev.db_instance = (pyLookup d "current_schema").getD .vnull ∧
  ev.mysql_residual =
    d.filter (fun kv => ¬ EVENTS_STATEMENTS_SAMPLE_EXCLUDE_KEYS.contains kv.1)

/-- An emitted event carries the schema and residual map of the row it was
    built from. -/
theorem process_row_emitted_src {σ : Type} (meta : EventMeta)
    (orc : CollectOracles σ) (now : Nat) (st : CollectState σ) (row : PyDict)
    (ev : Event) (st2 : CollectState σ)
    (h : process_row meta orc now st row = .emitted ev st2) :
    EventOfRow row ev := by
  unfold process_row at h
  repeat'
    first
    | exact RowOutcome.noConfusion h
    | split at h
    | dsimp only [] at h
  injection h with h1 h2
  subst h1
  simp_all [EventOfRow]

/-- Every event produced by the per-row loop originates from a row of its
    input list. -/
theorem collect_go_events_src {σ : Type} (meta : EventMeta)
    (orc : CollectOracles σ) (now : Nat) (rows : List PyDict)
    (st : CollectState σ) :
    ∀ ev ∈ (collect_go meta orc now rows st).events,
      ∃ d ∈ rows, EventOfRow d ev := by
  induction rows generalizing st with
  | nil => intro ev h; exact absurd h (List.not_mem_nil ev)
  | cons row rest ih =>
    intro ev h
    cases hpr : process_row meta orc now st row with
    | skipped st2 obfErr =>
      have heq : (collect_go meta orc now (row :: rest) st).events =
          (collect_go meta orc now rest st2).events := by
        simp only [collect_go, hpr]
      rw [heq] at h
      obtain ⟨d, hd, hde⟩ := ih st2 ev h
      exact ⟨d, List.mem_cons_of_mem row hd, hde⟩
    | emitted ev2 st2 =>
      have heq : (collect_go meta orc now (row :: rest) st).events =
          ev2 :: (collect_go meta orc now rest st2).events := by
        simp only [collect_go, hpr]
      rw [heq] at h
      cases List.mem_cons.mp h with
      | inl hh =>
        subst hh
        exact ⟨row, List.mem_cons_self row rest,
          process_row_emitted_src meta orc now st row ev st2 hpr⟩
      | inr hh =>
        obtain ⟨d, hd, hde⟩ := ih st2 ev hh
        exact ⟨d, List.mem_cons_of_mem row hd, hde⟩
    | raised e st2 =>
      have heq : (collect_go meta orc now (row :: rest) st).events = [] := by
        simp only [collect_go, hpr]
      rw [heq] at h
      exact absurd h (List.not_mem_nil ev)

/-- The filter only yields rows of its input batch. -/
theorem filter_go_yielded_subset (rows : List PyDict) :
    ∀ acc sent trunc,
    ∀ d ∈ (filter_valid_statement_rows_go rows acc sent trunc).yielded,
      d ∈ acc.reverse ++ rows := by
  induction rows with
  | nil =>
    intro acc sent trunc d h
    unfold filter_valid_statement_rows_go at h
    simpa using h
  | cons row rest ih =>
    intro acc sent trunc d h
    unfold filter_valid_statement_rows_go at h
    repeat' split at h
    all_goals
      first
      | (refine List.mem_append_left _ ?_
         simpa using h)
      | (have hy := ih _ _ _ d h
         simp only [List.mem_append, List.mem_cons, List.reverse_cons,
           List.mem_singleton, List.mem_reverse] at hy ⊢
         tauto)

/-- Every event of one plan-collection pass originates from a row of the
    input batch. -/
theorem collect_plans_events_src {σ : Type} (meta : EventMeta)
    (orc : CollectOracles σ) (now : Nat) (st : CollectState σ)
    (rows : List PyDict) :
    ∀ ev ∈ (collect_plans_for_statements meta orc now st rows).events,
      ∃ d ∈ rows, EventOfRow d ev := by
  intro ev h
  have hev : (collect_plans_for_statements meta orc now st rows).events =
      (collect_go meta orc now (filter_valid_statement_rows rows).yielded st).events := by
    unfold collect_plans_for_statements
    cases hr : (collect_go meta orc now
        (filter_valid_statement_rows rows).yielded st).raised with
    | none => simp only [hr]
    | some e => simp only [hr]
  rw [hev] at h
  obtain ⟨d, hd, hde⟩ :=
    collect_go_events_src meta orc now (filter_valid_statement_rows rows).yielded st ev h
  have hsub := filter_go_yielded_subset rows [] 0 0 d hd
  simp only [List.reverse_nil, List.nil_append] at hsub
  exact ⟨d, hsub, hde⟩

/-! ### Probe-row exclusion (C10) -/

/-- The database honours EVENTS_STATEMENTS_QUERY: every returned row has
    timer_start strictly above the checkpoint parameter and the batch
    respects the LIMIT. -/
def dbHonest (fetch : String → Nat → Nat → FetchOutcome) : Prop :=
  ∀ t cp lim rs, fetch t cp lim = .rows rs →
    (∀ x ∈ rs, cp < x.timer_start) ∧ rs.length ≤ lim

/-- On a cache miss the selector is the candidate walk followed by the
    rate computation and the cache write. -/
theorem get_strategy_miss_eq (cfg : SelectorConfig) (orcS : SelectorOracle)
    (cache : StratCache) (cp now : Nat)
    (hmiss : cache.getAt "plan_collection_strategy" now = none) :
    get_sample_collection_strategy cfg orcS cache cp now =
      (match select_table_loop orcS cfg.auto_enable cfg.preferred_tables cp with
       | (.error e, cp2) => ⟨none, cp2, cache, some e⟩
       | (.ok none, cp2) => ⟨none, cp2, cache, none⟩
       | (.ok (some t), cp2) =>
         let rate := if cfg.collections_per_second < 0
           then default_collections_per_second t
           else cfg.collections_per_second
         ⟨some (t, rate), cp2,
          cache.insert "plan_collection_strategy" (.tableRate t rate) now,
          none⟩) := by
  unfold get_sample_collection_strategy
  rw [hmiss]

/-- On a cache miss, a chosen strategy comes out of the candidate walk,
    whose final checkpoint the selector adopts, without an error. -/
theorem get_strategy_some_loop (cfg : SelectorConfig) (orcS : SelectorOracle)
    (cache : StratCache) (cp now : Nat) (t : String) (rate : ℚ)
    (hmiss : cache.getAt "plan_collection_strategy" now = none)
    (h : (get_sample_collection_strategy cfg orcS cache cp now).strategy =
      some (t, rate)) :
    (select_table_loop orcS cfg.auto_enable cfg.preferred_tables cp).1 =
      .ok (some t) ∧
    (get_sample_collection_strategy cfg orcS cache cp now).checkpoint =
      (select_table_loop orcS cfg.auto_enable cfg.preferred_tables cp).2 ∧
    (get_sample_collection_strategy cfg orcS cache cp now).raised = none := by
  rw [get_strategy_miss_eq cfg orcS cache cp now hmiss] at h ⊢
  cases hsl : select_table_loop orcS cfg.auto_enable cfg.preferred_tables cp with
  | mk fst snd =>
    rw [hsl] at h
    cases fst with
    | error e => exact Option.noConfusion h
    | ok o =>
      cases o with
      | none => exact Option.noConfusion h
      | some u =>
        have hu : u = t := congrArg Prod.fst (Option.some.inj h)
        subst hu
        exact ⟨rfl, rfl, rfl⟩

/-- C10: when strategy selection has no cached strategy and its 1-row probe
    of the chosen table returns a row, the shared checkpoint advances to
    that row's timer_start, so the same cycle's full fetch (filtered to
    timer_start strictly greater) cannot contain the probe row, and every
    event of the cycle originates from a row of the full fetch: the probe
    row is never emitted as an event. -/
theorem C10_probe_row_excluded (σ : Type) (cfg : SelectorConfig)
    (orcS : SelectorOracle) (meta : EventMeta) (orcC : CollectOracles σ)
    (lim : Nat) (st : SamplerState σ) (now : Nat) (t : String) (rate : ℚ)
    (r : StatementRow)
    (hhonest : dbHonest orcS.fetch)
    (hmiss : st.stratCache.getAt "plan_collection_strategy" now = none)
    (hstrat : (get_sample_collection_strategy cfg orcS st.stratCache
      st.checkpoint now).strategy = some (t, rate))
    (hprobe : orcS.fetch t st.checkpoint 1 = .rows [r]) :
    (get_sample_collection_strategy cfg orcS st.stratCache st.checkpoint
      now).checkpoint = r.timer_start ∧
    (∀ r2 ∈ (collect_statement_samples cfg orcS meta orcC lim st now).fetchedRows,
      r.timer_start < r2.timer_start) ∧
    r ∉ (collect_statement_samples cfg orcS meta orcC lim st now).fetchedRows ∧
    (∀ ev ∈ (collect_statement_samples cfg orcS meta orcC lim st now).events,
      ∃ r2 ∈ (collect_statement_samples cfg orcS meta orcC lim st now).fetchedRows,
        EventOfRow (rowToDict r2) ev) := by
  obtain ⟨hloop, hcpeq, hraised⟩ :=
    get_strategy_some_loop cfg orcS st.stratCache st.checkpoint now t rate hmiss hstrat
  obtain ⟨r0, rs0, hf0, hcp0⟩ := select_table_loop_checkpoint orcS cfg.auto_enable
    cfg.preferred_tables st.checkpoint t hloop
  rw [hprobe] at hf0
  obtain ⟨hra, hrb⟩ := List.cons.inj (FetchOutcome.rows.inj hf0)
  rw [← hra, ← hrb] at hcp0
  have hcp : (get_sample_collection_strategy cfg orcS st.stratCache
      st.checkpoint now).checkpoint = r.timer_start := by
    rw [hcpeq, hcp0]
    rfl
  refine ⟨hcp, ?_⟩
  cases hfull : orcS.fetch t ((get_sample_collection_strategy cfg orcS
      st.stratCache st.checkpoint now).checkpoint) lim with
  | dbError nargs code =>
    have hres : collect_statement_samples cfg orcS meta orcC lim st now =
        ⟨[], ⟨(get_sample_collection_strategy cfg orcS st.stratCache
            st.checkpoint now).checkpoint,
          (get_sample_collection_strategy cfg orcS st.stratCache
            st.checkpoint now).cache, st.collect⟩,
         some (.databaseError nargs code), []⟩ := by
      simp only [collect_statement_samples, hraised, hstrat, hfull]
      rfl
    rw [hres]
    exact ⟨fun r2 h2 => absurd h2 (List.not_mem_nil r2),
      List.not_mem_nil r, fun ev hev => absurd hev (List.not_mem_nil ev)⟩
  | rows rs2 =>
    have hgt : ∀ x ∈ rs2, r.timer_start < x.timer_start := by
      intro x hx
      have hh := (hhonest t _ lim rs2 hfull).1 x hx
      rw [hcp] at hh
      exact hh
    have hres : collect_statement_samples cfg orcS meta orcC lim st now =
        ⟨(collect_plans_for_statements meta orcC now st.collect
            (rs2.map rowToDict)).events,
         ⟨(get_new_events_statements (.rows rs2)
             ((get_sample_collection_strategy cfg orcS st.stratCache
               st.checkpoint now).checkpoint)).2,
          (get_sample_collection_strategy cfg orcS st.stratCache
            st.checkpoint now).cache,
          (collect_plans_for_statements meta orcC now st.collect
            (rs2.map rowToDict)).state⟩,
         (collect_plans_for_statements meta orcC now st.collect
            (rs2.map rowToDict)).raised, rs2⟩ := by
      simp only [collect_statement_samples, hraised, hstrat, hfull]
      cases rs2 with
      | nil => rfl
      | cons a as => rfl
    rw [hres]
    refine ⟨hgt, ?_, ?_⟩
    · intro hmem
      exact absurd (hgt r hmem) (Nat.lt_irrefl r.timer_start)
    · intro ev hev
      obtain ⟨d, hd, hde⟩ := collect_plans_events_src meta orcC now st.collect
        (rs2.map rowToDict) ev hev
      obtain ⟨r2, hr2, hr2d⟩ := List.mem_map.mp hd
      exact ⟨r2, hr2, hr2d ▸ hde⟩

/-- A concrete honest database for the witness: the 1-row probe at
    checkpoint 0 returns the row with timer_start 5; the full fetch at
    checkpoint 5 returns the row with timer_start 7. -/
def fetchC10 : String → Nat → Nat → FetchOutcome := fun _ cp lim =>
  if lim = 1 then (if cp = 0 then .rows [sampleRow 5] else .rows [])
  else if cp = 5 ∧ 1 ≤ lim then .rows [sampleRow 7] else .rows []

theorem fetchC10_honest : dbHonest fetchC10 := by
  intro t cp lim rs h
  unfold fetchC10 at h
  by_cases h1 : lim = 1
  · rw [if_pos h1] at h
    by_cases h2 : cp = 0
    · rw [if_pos h2] at h
      have hrs := (FetchOutcome.rows.inj h).symm
      subst hrs
      subst h1
      subst h2
      exact ⟨by intro x hx; simp at hx; subst hx; decide, by decide⟩
    · rw [if_neg h2] at h
      have hrs := (FetchOutcome.rows.inj h).symm
      subst hrs
      exact ⟨by intro x hx; simp at hx, by simp⟩
  · rw [if_neg h1] at h
    by_cases h2 : cp = 5 ∧ 1 ≤ lim
    · rw [if_pos h2] at h
      have hrs := (FetchOutcome.rows.inj h).symm
      subst hrs
      obtain ⟨h2a, h2b⟩ := h2
      subst h2a
      exact ⟨by intro x hx; simp at hx; subst hx; decide, by simpa using h2b⟩
    · rw [if_neg h2] at h
      have hrs := (FetchOutcome.rows.inj h).symm
      subst hrs
      exact ⟨by intro x hx; simp at hx, by simp⟩

def orcSelC10 : SelectorOracle :=
  { enabled_consumers := ["events_statements_history_long"]
    enable_consumer := fun _ => false
    fetch := fetchC10 }

def samplerStateC10 : SamplerState Unit :=
  ⟨0, emptyStratCache, freshCollectState⟩

/-- C10 witness: the theorem applied to a concrete honest database; the
    probe row (timer_start 5) fixes the checkpoint and is absent from the
    full fetch, which returns only the row with timer_start 7. -/
theorem C10_probe_row_excluded_witness :
    (get_sample_collection_strategy cfgC7 orcSelC10 emptyStratCache 0 0).checkpoint = 5 ∧
    sampleRow 5 ∉ (collect_statement_samples cfgC7 orcSelC10 metaW
      orcObfDigestFail 10 samplerStateC10 0).fetchedRows := by
  have h := C10_probe_row_excluded Unit cfgC7 orcSelC10 metaW orcObfDigestFail
    10 samplerStateC10 0 "events_statements_history_long" (1 / 10)
    (sampleRow 5) fetchC10_honest rfl rfl rfl
  exact ⟨h.1, h.2.2.1⟩

/-! ### Bounded-expiring-cache lemmas (towards C8 and C9) -/

theorem ttl_expire {K V : Type} (c : TTLCache K V) (now : Nat) :
    (c.expire now).ttl = c.ttl := rfl

theorem evictions_expire {K V : Type} (c : TTLCache K V) (now : Nat) :
    (c.expire now).evictions = c.evictions := rfl

theorem maxsize_expire {K V : Type} (c : TTLCache K V) (now : Nat) :
    (c.expire now).maxsize = c.maxsize := rfl

theorem ttl_insert {K V : Type} [DecidableEq K] (c : TTLCache K V) (k : K)
    (v : V) (now : Nat) : (c.insert k v now).ttl = c.ttl := by
  simp only [TTLCache.insert]
  split <;> rfl

theorem evictions_insert_le {K V : Type} [DecidableEq K] (c : TTLCache K V)
    (k : K) (v : V) (now : Nat) :
    c.evictions ≤ (c.insert k v now).evictions := by
  simp only [TTLCache.insert]
  split
  · exact Nat.le_refl _
  · exact Nat.le_add_right _ _

/-- With no capacity eviction, an insert keeps every live entry under a
    different key. -/
theorem insert_preserves_entry {K V : Type} [DecidableEq K] (c : TTLCache K V)
    (k : K) (v : V) (now : Nat) (k0 : K) (v0 : V) (t0 : Nat)
    (hne : ¬ (k0 = k))
    (hmem : (k0, v0, t0) ∈ c.entries)
    (hlive : now ≤ t0 + c.ttl)
    (hnoevict : (c.insert k v now).evictions = c.evictions) :
    (k0, v0, t0) ∈ (c.insert k v now).entries := by
  have hmem2 : (k0, v0, t0) ∈ (c.expire now).entries := by
    simp only [TTLCache.expire]
    exact List.mem_filter.mpr ⟨hmem, by simpa using hlive⟩
  have hmem3 : (k0, v0, t0) ∈
      (c.expire now).entries.filter (fun e => ¬ (e.1 = k)) :=
    List.mem_filter.mpr ⟨hmem2, by simpa using hne⟩
  by_cases hp : ((c.expire now).entries.any (fun e => e.1 = k)) = true
  · simp only [TTLCache.insert, hp, if_true]
    exact List.mem_append_left _ hmem3
  · simp only [TTLCache.insert, hp, Bool.false_eq_true, if_false,
      evictions_expire] at hnoevict ⊢
    have hov : ((c.expire now).entries.filter
        (fun e => ¬ (e.1 = k))).length + 1 - (c.expire now).maxsize = 0 := by
      omega
    rw [hov]
    rw [List.drop_zero]
    exact List.mem_append_left _ hmem3

/-- The inserted entry is in the cache afterwards. -/
theorem insert_mem_self {K V : Type} [DecidableEq K] (c : TTLCache K V)
    (k : K) (v : V) (now : Nat) :
    (k, v, now) ∈ (c.insert k v now).entries := by
  simp only [TTLCache.insert]
  split
  · exact List.mem_append_right _ (List.mem_singleton.mpr rfl)
  · exact List.mem_append_right _ (List.mem_singleton.mpr rfl)

def keysNodup {K V : Type} (c : TTLCache K V) : Prop :=
  (c.entries.map (fun e => e.1)).Nodup

theorem keysNodup_insert {K V : Type} [DecidableEq K] (c : TTLCache K V)
    (k : K) (v : V) (now : Nat) (hnd : keysNodup c) :
    keysNodup (c.insert k v now) := by
  have hsub : ∀ l : List (K × V × Nat),
      l.Sublist c.entries → (l.map (fun e => e.1)).Nodup := by
    intro l hl
    exact List.Nodup.sublist (List.Sublist.map _ hl) hnd
  have hfilt : ((c.expire now).entries.filter
      (fun e => ¬ (e.1 = k))).Sublist c.entries := by
    have h1 : ((c.expire now).entries.filter
        (fun e => ¬ (e.1 = k))).Sublist (c.expire now).entries :=
      List.filter_sublist _
    have h2 : (c.expire now).entries.Sublist c.entries := List.filter_sublist _
    exact h1.trans h2
  have hmk : ∀ (l : List (K × V × Nat)),
      (∀ e ∈ l, ¬ (e.1 = k)) → (l.map (fun e => e.1)).Nodup →
      ((l ++ [(k, v, now)]).map (fun e => e.1)).Nodup := by
    intro l hnot hnd2
    rw [List.map_append]
    refine List.Nodup.append hnd2 (List.nodup_singleton k) ?_
    intro a ha hb
    simp only [List.map_cons, List.map_nil, List.mem_singleton] at hb
    subst hb
    obtain ⟨e, he, hek⟩ := List.mem_map.mp ha
    exact hnot e he hek
  unfold keysNodup
  by_cases hp : ((c.expire now).entries.any (fun e => e.1 = k)) = true
  · simp only [TTLCache.insert, hp, if_true]
    refine hmk _ ?_ (hsub _ hfilt)
    intro e he
    simpa using (List.of_mem_filter he)
  · simp only [TTLCache.insert, hp, Bool.false_eq_true, if_false]
    refine hmk _ ?_ ?_
    · intro e he
      have := List.mem_of_mem_drop he
      simpa using (List.of_mem_filter this)
    · exact hsub _ ((List.drop_sublist _ _).trans hfilt)

/-- Two entries of a key-nodup cache with the same key coincide. -/
theorem entry_eq_of_keysNodup {K V : Type} (c : TTLCache K V)
    (hnd : keysNodup c) (a b : K × V × Nat) (ha : a ∈ c.entries)
    (hb : b ∈ c.entries) (hk : a.1 = b.1) : a = b :=
  List.inj_on_of_nodup_map hnd ha hb hk

/-- A live entry that reads back as absent must have expired by the read
    time. -/
theorem getAt_none_of_mem {K V : Type} [DecidableEq K] (c : TTLCache K V)
    (k0 : K) (v0 : V) (t0 tq : Nat)
    (hnd : keysNodup c)
    (hmem : (k0, v0, t0) ∈ c.entries)
    (hget : c.getAt k0 tq = none) : t0 + c.ttl < tq := by
  unfold TTLCache.getAt at hget
  cases hf : c.entries.find? (fun e => e.1 = k0) with
  | none =>
    have := List.find?_eq_none.mp hf (k0, v0, t0) hmem
    simp at this
  | some e =>
    simp only [hf] at hget
    by_cases hle : tq ≤ e.2.2 + c.ttl
    · rw [if_pos hle] at hget
      exact Option.noConfusion hget
    · have hek : e.1 = k0 := by simpa using List.find?_some hf
      have hemem : e ∈ c.entries := List.mem_of_find?_eq_some hf
      have heq : e = (k0, v0, t0) :=
        entry_eq_of_keysNodup c hnd e (k0, v0, t0) hemem hmem hek
      have ht : e.2.2 = t0 := by rw [heq]
      omega

/-! ### Seen-cache invariant -/

abbrev SeenKey := String × Option String
abbrev SeenCache := TTLCache SeenKey Unit

/-- Every recorded emission is still covered by the cache: its key has an
    entry at least as fresh as the emission time, or its TTL window closed
    before the reference time. -/
def PastOk (c : SeenCache) (tref : Nat) (past : List (Nat × SeenKey)) : Prop :=
  ∀ p ∈ past, (∃ tins, p.1 ≤ tins ∧ (p.2, (), tins) ∈ c.entries) ∨
    p.1 + c.ttl < tref

theorem pastok_mono (c : SeenCache) (t1 t2 : Nat)
    (past : List (Nat × SeenKey)) (h12 : t1 ≤ t2) (h : PastOk c t1 past) :
    PastOk c t2 past := by
  intro p hp
  cases h p hp with
  | inl hl => exact Or.inl hl
  | inr hr => exact Or.inr (Nat.lt_of_lt_of_le hr h12)

theorem pastok_sub (c : SeenCache) (t : Nat)
    (past past2 : List (Nat × SeenKey)) (hsub : ∀ p ∈ past2, p ∈ past)
    (h : PastOk c t past) : PastOk c t past2 :=
  fun p hp => h p (hsub p hp)

/-- The key step: a guarded insert (performed only when the key reads back
    absent) separates the new emission from every covered past emission of
    the same key by more than one TTL, and re-establishes the invariant
    with the new emission recorded. -/
theorem pastok_guarded_insert (c : SeenCache) (k : SeenKey) (now : Nat)
    (past : List (Nat × SeenKey))
    (hnd : keysNodup c)
    (hget : c.getAt k now = none)
    (hnoevict : (c.insert k () now).evictions = c.evictions)
    (hpast : PastOk c now past) :
    (∀ p ∈ past, p.2 = k → p.1 + c.ttl < now) ∧
    PastOk (c.insert k () now) now (past ++ [(now, k)]) ∧
    keysNodup (c.insert k () now) := by
  have hsep : ∀ p ∈ past, p.2 = k → p.1 + c.ttl < now := by
    intro p hp hpk
    cases hpast p hp with
    | inl hl =>
      obtain ⟨tins, hle, hmem⟩ := hl
      rw [hpk] at hmem
      have := getAt_none_of_mem c k () tins now hnd hmem hget
      omega
    | inr hr => exact hr
  refine ⟨hsep, ?_, keysNodup_insert c k () now hnd⟩
  intro p hp
  rw [List.mem_append] at hp
  cases hp with
  | inr hp2 =>
    simp only [List.mem_singleton] at hp2
    subst hp2
    exact Or.inl ⟨now, Nat.le_refl now, insert_mem_self c k () now⟩
  | inl hp1 =>
    by_cases hpk : p.2 = k
    · have := hsep p hp1 hpk
      rw [ttl_insert]
      exact Or.inr (by omega)
    · cases hpast p hp1 with
      | inr hr =>
        rw [ttl_insert]
        exact Or.inr hr
      | inl hl =>
        obtain ⟨tins, hle, hmem⟩ := hl
        by_cases hlive : now ≤ tins + c.ttl
        · exact Or.inl ⟨tins, hle,
            insert_preserves_entry c k () now p.2 () tins hpk hmem hlive hnoevict⟩
        · rw [ttl_insert]
          exact Or.inr (by omega)

/-! ### How one processed row steps the seen cache -/

theorem option_unit_none_of_ne_some (o : Option Unit) (h : ¬ o = some ()) :
    o = none := by
  cases o with
  | none => rfl
  | some u => cases u; exact absurd rfl h

theorem process_row_seen_skipped {σ : Type} (meta : EventMeta)
    (orc : CollectOracles σ) (now : Nat) (st : CollectState σ) (row : PyDict)
    (st2 : CollectState σ) (b : Bool)
    (h : process_row meta orc now st row = .skipped st2 b) :
    st2.seen = st.seen := by
  unfold process_row at h
  repeat'
    first
    | exact RowOutcome.noConfusion h
    | split at h
    | dsimp only [] at h
  all_goals
    injection h with h1 h2
  all_goals
    subst h1
  all_goals rfl

theorem process_row_seen_raised {σ : Type} (meta : EventMeta)
    (orc : CollectOracles σ) (now : Nat) (st : CollectState σ) (row : PyDict)
    (e : PyErr) (st2 : CollectState σ)
    (h : process_row meta orc now st row = .raised e st2) :
    st2.seen = st.seen ∨
    ∃ k, st.seen.getAt k now = none ∧ st2.seen = st.seen.insert k () now := by
  unfold process_row at h
  repeat'
    first
    | exact RowOutcome.noConfusion h
    | split at h
    | dsimp only [] at h
  all_goals
    injection h with h1 h2
  all_goals
    subst h2
  all_goals
    first
    | exact Or.inl rfl
    | (refine Or.inr ⟨_, option_unit_none_of_ne_some _ ?_, rfl⟩
       assumption)

theorem process_row_seen_emitted {σ : Type} (meta : EventMeta)
    (orc : CollectOracles σ) (now : Nat) (st : CollectState σ) (row : PyDict)
    (ev : Event) (st2 : CollectState σ)
    (h : process_row meta orc now st row = .emitted ev st2) :
    st.seen.getAt (eventPair ev) now = none ∧
    st2.seen = st.seen.insert (eventPair ev) () now := by
  unfold process_row at h
  repeat'
    first
    | exact RowOutcome.noConfusion h
    | split at h
    | dsimp only [] at h
  injection h with h1 h2
  subst h1
  subst h2
  exact ⟨option_unit_none_of_ne_some _ (by assumption), rfl⟩

/-! ### Evictions are monotone through a collection pass -/

theorem collect_go_cons_skipped {σ : Type} (meta : EventMeta)
    (orc : CollectOracles σ) (now : Nat) (row : PyDict) (rest : List PyDict)
    (st st2 : CollectState σ) (b : Bool)
    (hpr : process_row meta orc now st row = .skipped st2 b) :
    (collect_go meta orc now (row :: rest) st).events =
      (collect_go meta orc now rest st2).events ∧
    (collect_go meta orc now (row :: rest) st).state =
      (collect_go meta orc now rest st2).state := by
  constructor <;> simp only [collect_go, hpr]

theorem collect_go_cons_emitted {σ : Type} (meta : EventMeta)
    (orc : CollectOracles σ) (now : Nat) (row : PyDict) (rest : List PyDict)
    (st st2 : CollectState σ) (ev : Event)
    (hpr : process_row meta orc now st row = .emitted ev st2) :
    (collect_go meta orc now (row :: rest) st).events =
      ev :: (collect_go meta orc now rest st2).events ∧
    (collect_go meta orc now (row :: rest) st).state =
      (collect_go meta orc now rest st2).state := by
  constructor <;> simp only [collect_go, hpr]

theorem collect_go_cons_raised {σ : Type} (meta : EventMeta)
    (orc : CollectOracles σ) (now : Nat) (row : PyDict) (rest : List PyDict)
    (st st2 : CollectState σ) (e : PyErr)
    (hpr : process_row meta orc now st row = .raised e st2) :
    (collect_go meta orc now (row :: rest) st).events = [] ∧
    (collect_go meta orc now (row :: rest) st).state = st2 := by
  constructor <;> simp only [collect_go, hpr]

theorem collect_go_evictions_le {σ : Type} (meta : EventMeta)
    (orc : CollectOracles σ) (now : Nat) (rows : List PyDict) :
    ∀ st : CollectState σ,
    st.seen.evictions ≤ (collect_go meta orc now rows st).state.seen.evictions := by
  induction rows with
  | nil => intro st; exact Nat.le_refl _
  | cons row rest ih =>
    intro st
    cases hpr : process_row meta orc now st row with
    | skipped st2 b =>
      rw [(collect_go_cons_skipped meta orc now row rest st st2 b hpr).2]
      have hs := process_row_seen_skipped meta orc now st row st2 b hpr
      calc st.seen.evictions = st2.seen.evictions := by rw [hs]
        _ ≤ _ := ih st2
    | emitted ev st2 =>
      rw [(collect_go_cons_emitted meta orc now row rest st st2 ev hpr).2]
      have hs := (process_row_seen_emitted meta orc now st row ev st2 hpr).2
      calc st.seen.evictions
          ≤ (st.seen.insert (eventPair ev) () now).evictions :=
            evictions_insert_le st.seen (eventPair ev) () now
        _ = st2.seen.evictions := by rw [hs]
        _ ≤ _ := ih st2
    | raised e st2 =>
      rw [(collect_go_cons_raised meta orc now row rest st st2 e hpr).2]
      cases process_row_seen_raised meta orc now st row e st2 hpr with
      | inl hl => rw [hl]
      | inr hr =>
        obtain ⟨k, _, hk⟩ := hr
        rw [hk]
        exact evictions_insert_le st.seen k () now

theorem collect_go_ttl_eq {σ : Type} (meta : EventMeta)
    (orc : CollectOracles σ) (now : Nat) (rows : List PyDict) :
    ∀ st : CollectState σ,
    (collect_go meta orc now rows st).state.seen.ttl = st.seen.ttl := by
  induction rows with
  | nil => intro st; rfl
  | cons row rest ih =>
    intro st
    cases hpr : process_row meta orc now st row with
    | skipped st2 b =>
      rw [(collect_go_cons_skipped meta orc now row rest st st2 b hpr).2, ih st2,
        process_row_seen_skipped meta orc now st row st2 b hpr]
    | emitted ev st2 =>
      rw [(collect_go_cons_emitted meta orc now row rest st st2 ev hpr).2, ih st2,
        (process_row_seen_emitted meta orc now st row ev st2 hpr).2, ttl_insert]
    | raised e st2 =>
      rw [(collect_go_cons_raised meta orc now row rest st st2 e hpr).2]
      cases process_row_seen_raised meta orc now st row e st2 hpr with
      | inl hl => rw [hl]
      | inr hr =>
        obtain ⟨k, _, hk⟩ := hr
        rw [hk, ttl_insert]

/-- The invariant carried through one collection pass: events of the pass
    are separated from covered past emissions of the same key, have
    pairwise distinct keys among themselves, and the invariant holds again
    afterwards with the new emissions recorded. -/
theorem collect_go_seen_inv {σ : Type} (meta : EventMeta)
    (orc : CollectOracles σ) (now : Nat) (rows : List PyDict) :
    ∀ (st : CollectState σ) (past : List (Nat × SeenKey)),
    keysNodup st.seen →
    PastOk st.seen now past →
    (collect_go meta orc now rows st).state.seen.evictions =
      st.seen.evictions →
    (∀ p ∈ past, ∀ ev ∈ (collect_go meta orc now rows st).events,
       eventPair ev = p.2 → p.1 + st.seen.ttl < now) ∧
    List.Pairwise (fun a b => eventPair a ≠ eventPair b)
      (collect_go meta orc now rows st).events ∧
    PastOk (collect_go meta orc now rows st).state.seen now
      (past ++ (collect_go meta orc now rows st).events.map
        (fun ev => (now, eventPair ev))) ∧
    keysNodup (collect_go meta orc now rows st).state.seen := by
  induction rows with
  | nil =>
    intro st past hnd hpast hnoev
    refine ⟨?_, List.Pairwise.nil, ?_, hnd⟩
    · intro p _ ev hev
      exact absurd hev (List.not_mem_nil ev)
    · simpa [collect_go] using hpast
  | cons row rest ih =>
    intro st past hnd hpast hnoev
    cases hpr : process_row meta orc now st row with
    | skipped st2 b =>
      obtain ⟨hev, hst⟩ := collect_go_cons_skipped meta orc now row rest st st2 b hpr
      have hs := process_row_seen_skipped meta orc now st row st2 b hpr
      rw [hst] at hnoev
      have hih := ih st2 past (by rw [hs]; exact hnd) (by rw [hs]; exact hpast)
        (by rw [hs]; exact hnoev)
      rw [hev, hst]
      refine ⟨?_, hih.2.1, hih.2.2.1, hih.2.2.2⟩
      intro p hp ev hevm hpk
      have hh := hih.1 p hp ev hevm hpk
      rw [hs] at hh
      exact hh
    | raised e st2 =>
      obtain ⟨hev, hst⟩ := collect_go_cons_raised meta orc now row rest st st2 e hpr
      rw [hev, hst]
      refine ⟨?_, List.Pairwise.nil, ?_, ?_⟩
      · intro p _ ev hevm
        exact absurd hevm (List.not_mem_nil ev)
      · cases process_row_seen_raised meta orc now st row e st2 hpr with
        | inl hl =>
          rw [hl]
          simpa using hpast
        | inr hr =>
          obtain ⟨k, hget, hk⟩ := hr
          rw [hst] at hnoev
          rw [hk] at hnoev ⊢
          have hgi := pastok_guarded_insert st.seen k now past hnd hget hnoev hpast
          simpa using pastok_sub _ _ _ past
            (fun p hp => List.mem_append_left _ hp) hgi.2.1
      · cases process_row_seen_raised meta orc now st row e st2 hpr with
        | inl hl => rw [hl]; exact hnd
        | inr hr =>
          obtain ⟨k, hget, hk⟩ := hr
          rw [hk]
          exact keysNodup_insert st.seen k () now hnd
    | emitted ev2 st2 =>
      obtain ⟨hev, hst⟩ := collect_go_cons_emitted meta orc now row rest st st2 ev2 hpr
      obtain ⟨hget, hs⟩ := process_row_seen_emitted meta orc now st row ev2 st2 hpr
      rw [hst] at hnoev
      have hins_le : st.seen.evictions ≤
          (st.seen.insert (eventPair ev2) () now).evictions :=
        evictions_insert_le st.seen (eventPair ev2) () now
      have htail_le : st2.seen.evictions ≤
          (collect_go meta orc now rest st2).state.seen.evictions :=
        collect_go_evictions_le meta orc now rest st2
      have hins_ev : (st.seen.insert (eventPair ev2) () now).evictions =
          st.seen.evictions := by
        rw [hs] at htail_le
        omega
      have htail_ev : (collect_go meta orc now rest st2).state.seen.evictions =
          st2.seen.evictions := by
        rw [hs] at htail_le ⊢
        omega
      have hgi := pastok_guarded_insert st.seen (eventPair ev2) now past hnd
        hget hins_ev hpast
      have httl2 : st2.seen.ttl = st.seen.ttl := by
        rw [hs, ttl_insert]
      have hih := ih st2 (past ++ [(now, eventPair ev2)])
        (by rw [hs]; exact hgi.2.2) (by rw [hs]; exact hgi.2.1) htail_ev
      rw [hev, hst]
      refine ⟨?_, ?_, ?_, hih.2.2.2⟩
      · intro p hp ev hevm hpk
        cases List.mem_cons.mp hevm with
        | inl he =>
          subst he
          exact hgi.1 p hp hpk.symm
        | inr he =>
          have := hih.1 p (List.mem_append_left _ hp) ev he hpk
          rw [httl2] at this
          exact this
      · refine List.Pairwise.cons ?_ hih.2.1
        intro b hb hne
        have := hih.1 (now, eventPair ev2)
          (List.mem_append_right _ (List.mem_singleton.mpr rfl)) b hb hne.symm
        omega
      · have hlist : past ++ (ev2 :: (collect_go meta orc now rest st2).events).map
            (fun ev => (now, eventPair ev)) =
            (past ++ [(now, eventPair ev2)]) ++
              ((collect_go meta orc now rest st2).events).map
                (fun ev => (now, eventPair ev)) := by
          simp [List.append_assoc]
        rw [hlist]
        exact hih.2.2.1

/-! ### The invariant across a run of cycles -/

theorem collect_plans_state_events {σ : Type} (meta : EventMeta)
    (orc : CollectOracles σ) (now : Nat) (st : CollectState σ)
    (rows : List PyDict) :
    (collect_plans_for_statements meta orc now st rows).state =
      (collect_go meta orc now (filter_valid_statement_rows rows).yielded st).state ∧
    (collect_plans_for_statements meta orc now st rows).events =
      (collect_go meta orc now (filter_valid_statement_rows rows).yielded st).events := by
  simp only [collect_plans_for_statements]
  cases hr : (collect_go meta orc now
      (filter_valid_statement_rows rows).yielded st).raised with
  | none => exact ⟨rfl, rfl⟩
  | some e => exact ⟨rfl, rfl⟩

theorem run_cycles_evictions_le {σ : Type} (meta : EventMeta)
    (orc : CollectOracles σ) (cycles : List (Nat × List PyDict)) :
    ∀ st : CollectState σ,
    st.seen.evictions ≤ (run_cycles meta orc cycles st).2.seen.evictions := by
  induction cycles with
  | nil => intro st; exact Nat.le_refl _
  | cons c rest ih =>
    intro st
    obtain ⟨now, rows⟩ := c
    have hst := (collect_plans_state_events meta orc now st rows).1
    calc st.seen.evictions
        ≤ (collect_plans_for_statements meta orc now st rows).state.seen.evictions := by
          rw [hst]
          exact collect_go_evictions_le meta orc now _ st
      _ ≤ _ := ih _

theorem run_cycles_ttl_eq {σ : Type} (meta : EventMeta)
    (orc : CollectOracles σ) (cycles : List (Nat × List PyDict)) :
    ∀ st : CollectState σ,
    (run_cycles meta orc cycles st).2.seen.ttl = st.seen.ttl := by
  induction cycles with
  | nil => intro st; rfl
  | cons c rest ih =>
    intro st
    obtain ⟨now, rows⟩ := c
    have hst := (collect_plans_state_events meta orc now st rows).1
    calc (run_cycles meta orc ((now, rows) :: rest) st).2.seen.ttl
        = (collect_plans_for_statements meta orc now st rows).state.seen.ttl :=
          ih _
      _ = st.seen.ttl := by rw [hst]; exact collect_go_ttl_eq meta orc now _ st

/-- The run-level invariant: every emission of a covered past key is more
    than one TTL after it, and any two emissions of the same key in the run
    are more than one TTL apart, provided the seen cache never evicts for
    capacity and cycle times are nondecreasing. -/
theorem run_cycles_seen_sep {σ : Type} (meta : EventMeta)
    (orc : CollectOracles σ) (cycles : List (Nat × List PyDict)) :
    ∀ (st : CollectState σ) (tref : Nat) (past : List (Nat × SeenKey)),
    List.Chain (fun a b => a ≤ b) tref (cycles.map Prod.fst) →
    keysNodup st.seen →
    PastOk st.seen tref past →
    (run_cycles meta orc cycles st).2.seen.evictions = st.seen.evictions →
    (∀ p ∈ past, ∀ q ∈ (run_cycles meta orc cycles st).1,
       eventPair q.2 = p.2 → p.1 + st.seen.ttl < q.1) ∧
    List.Pairwise (fun a b => eventPair a.2 = eventPair b.2 →
      a.1 + st.seen.ttl < b.1) (run_cycles meta orc cycles st).1 := by
  induction cycles with
  | nil =>
    intro st tref past _ _ _ _
    exact ⟨fun p _ q hq => absurd hq (List.not_mem_nil q), List.Pairwise.nil⟩
  | cons c rest ih =>
    intro st tref past hchain hnd hpast hnoev
    obtain ⟨now, rows⟩ := c
    rw [List.map_cons, List.chain_cons] at hchain
    obtain ⟨hrefnow, hchain2⟩ := hchain
    obtain ⟨hst, hev⟩ := collect_plans_state_events meta orc now st rows
    have hcg_le : st.seen.evictions ≤
        (collect_go meta orc now (filter_valid_statement_rows rows).yielded
          st).state.seen.evictions :=
      collect_go_evictions_le meta orc now _ st
    have hrun_le : (collect_plans_for_statements meta orc now st
        rows).state.seen.evictions ≤
        (run_cycles meta orc rest
          (collect_plans_for_statements meta orc now st rows).state).2.seen.evictions :=
      run_cycles_evictions_le meta orc rest _
    have hrun_eq : (run_cycles meta orc ((now, rows) :: rest) st).2 =
        (run_cycles meta orc rest
          (collect_plans_for_statements meta orc now st rows).state).2 := rfl
    rw [hrun_eq] at hnoev
    rw [hst] at hrun_le hnoev
    have hcg_ev : (collect_go meta orc now
        (filter_valid_statement_rows rows).yielded st).state.seen.evictions =
        st.seen.evictions := by
      omega
    have htail_ev : (run_cycles meta orc rest
        (collect_plans_for_statements meta orc now st rows).state).2.seen.evictions =
        (collect_plans_for_statements meta orc now st rows).state.seen.evictions := by
      rw [hst]
      omega
    have hinv := collect_go_seen_inv meta orc now
      (filter_valid_statement_rows rows).yielded st past hnd
      (pastok_mono st.seen tref now past hrefnow hpast) hcg_ev
    have httlcg : (collect_go meta orc now
        (filter_valid_statement_rows rows).yielded st).state.seen.ttl =
        st.seen.ttl := collect_go_ttl_eq meta orc now _ st
    have hih := ih (collect_plans_for_statements meta orc now st rows).state now
      (past ++ (collect_go meta orc now
        (filter_valid_statement_rows rows).yielded st).events.map
        (fun ev => (now, eventPair ev)))
      hchain2 (by rw [hst]; exact hinv.2.2.2) (by rw [hst]; exact hinv.2.2.1)
      htail_ev
    have httl2 : (collect_plans_for_statements meta orc now st
        rows).state.seen.ttl = st.seen.ttl := by
      rw [hst]
      exact httlcg
    rw [httl2] at hih
    have hemis : (run_cycles meta orc ((now, rows) :: rest) st).1 =
        (collect_go meta orc now (filter_valid_statement_rows rows).yielded
          st).events.map (fun ev => (now, ev)) ++
        (run_cycles meta orc rest
          (collect_plans_for_statements meta orc now st rows).state).1 := by
      show (collect_plans_for_statements meta orc now st rows).events.map
          (fun ev => (now, ev)) ++ _ = _
      rw [hev]
    rw [hemis]
    constructor
    · intro p hp q hq hqk
      rw [List.mem_append] at hq
      cases hq with
      | inl hq1 =>
        obtain ⟨ev, hevm, hevq⟩ := List.mem_map.mp hq1
        have := hinv.1 p hp ev hevm (by rw [← hevq] at hqk; exact hqk)
        rw [← hevq]
        exact this
      | inr hq2 =>
        exact hih.1 p (List.mem_append_left _ hp) q hq2 hqk
    · rw [List.pairwise_append]
      refine ⟨?_, hih.2, ?_⟩
      · refine List.Pairwise.map _ ?_ hinv.2.1
        intro a b hab
        intro hk
        exact absurd hk hab
      · intro a ha b hb hk
        obtain ⟨ev, hevm, hevq⟩ := List.mem_map.mp ha
        have hpmem : (now, eventPair ev) ∈ past ++ (collect_go meta orc now
            (filter_valid_statement_rows rows).yielded st).events.map
            (fun ev => (now, eventPair ev)) :=
          List.mem_append_right _ (List.mem_map_of_mem _ hevm)
        have := hih.1 (now, eventPair ev) hpmem b hb
          (by rw [← hevq] at hk; exact hk.symm)
        rw [← hevq]
        exact this

/-! ### Claim results C8 and C9 -/

def rowA : StatementRow := { sampleRow 5 with digest_text := "QA" }

def rowB : StatementRow := { sampleRow 6 with digest_text := "QB" }

/-- Dedup caches configured with capacity 1
    (explained_statements_cache_maxsize and seen_samples_cache_maxsize are
    configuration surface). -/
def smallCollectState : CollectState Unit :=
  { explained := TTLCache.empty String Unit 1 60
    seen := TTLCache.empty (String × Option String) Unit 1 240
    expl := () }

/-- Identity obfuscation and signatures; the explain engine finds no plan. -/
def orcPlain : CollectOracles Unit :=
  { obfuscate_sql := fun s => .ok s
    obfuscate_sql_exec_plan := fun p _ => p
    compute_sql_signature := fun s => s
    compute_exec_plan_signature := fun p => p
    explain_statement_safe := fun _ _ u => (none, u) }

/-- Identity obfuscation and signatures; the explain engine returns an
    empty JSON object plan. -/
def orcPlanful : CollectOracles Unit :=
  { obfuscate_sql := fun s => .ok s
    obfuscate_sql_exec_plan := fun p _ => p
    compute_sql_signature := fun s => s
    compute_exec_plan_signature := fun p => p
    explain_statement_safe := fun _ _ u => (some "\x7b\x7d", u) }

/-- C8 counterexample: with the dedup caches configured at capacity 1, one
    batch holding the same statement twice around a second distinct
    statement emits the pair of the first statement twice within one cycle
    (and so twice within one seen-pair TTL window of 240 seconds): the
    middle insertion capacity-evicts both cache entries of the first
    statement, defeating the claimed at-most-once property. -/
theorem C8_counterexample_capacity_eviction :
    ((collect_plans_for_statements metaW orcPlanful 0 smallCollectState
      [rowToDict rowA, rowToDict rowB, rowToDict rowA]).events.map eventPair) =
      [("QA", some "\x7b\x7d"), ("QB", some "\x7b\x7d"),
       ("QA", some "\x7b\x7d")] ∧
    smallCollectState.seen.ttl = 240 := by
  exact ⟨rfl, rfl⟩

/-- C8 (amended): for every (query signature, plan signature) pair, at most
    one event carrying that pair is emitted within one seen-pair cache TTL
    window, provided the seen-samples cache performs no capacity eviction
    during the run: an event is yielded only if the pair is absent from the
    seen cache, and the pair is inserted at the moment of emission, so any
    two emissions of the same pair at nondecreasing cycle times are more
    than one TTL apart. -/
theorem C8_seen_pair_ttl_amended (σ : Type) (meta : EventMeta)
    (orc : CollectOracles σ) (cycles : List (Nat × List PyDict))
    (maxE ttlE maxS ttlS : Nat) (expl0 : σ)
    (hchain : List.Chain (fun a b => a ≤ b) 0 (cycles.map Prod.fst))
    (hnoevict : (run_cycles meta orc cycles
      ⟨TTLCache.empty String Unit maxE ttlE,
       TTLCache.empty (String × Option String) Unit maxS ttlS,
       expl0⟩).2.seen.evictions = 0) :
    List.Pairwise (fun a b => eventPair a.2 = eventPair b.2 →
        a.1 + ttlS < b.1)
      (run_cycles meta orc cycles
        ⟨TTLCache.empty String Unit maxE ttlE,
         TTLCache.empty (String × Option String) Unit maxS ttlS,
         expl0⟩).1 := by
  have h := run_cycles_seen_sep meta orc cycles
    ⟨TTLCache.empty String Unit maxE ttlE,
     TTLCache.empty (String × Option String) Unit maxS ttlS, expl0⟩
    0 [] hchain List.nodup_nil (fun p hp => absurd hp (List.not_mem_nil p))
    hnoevict
  exact h.2

def cyclesC8 : List (Nat × List PyDict) :=
  [(0, [rowToDict rowA]), (300, [rowToDict rowA])]

/-- C8 witness: the amended theorem applied to a concrete eviction-free
    run, in which the same statement is emitted at time 0 and again at time
    300, more than one 240-second TTL later. -/
theorem C8_seen_pair_ttl_amended_witness :
    List.Pairwise (fun a b => eventPair a.2 = eventPair b.2 →
        a.1 + 240 < b.1)
      (run_cycles metaW orcPlanful cyclesC8
        ⟨TTLCache.empty String Unit 5000 60,
         TTLCache.empty (String × Option String) Unit 10000 240, ()⟩).1 ∧
    ((run_cycles metaW orcPlanful cyclesC8
        ⟨TTLCache.empty String Unit 5000 60,
         TTLCache.empty (String × Option String) Unit 10000 240, ()⟩).1.map
      (fun q => (q.1, eventPair q.2))) =
      [(0, ("QA", some "\x7b\x7d")), (300, ("QA", some "\x7b\x7d"))] := by
  exact ⟨C8_seen_pair_ttl_amended Unit metaW orcPlanful cyclesC8 5000 60
    10000 240 () (.cons (by omega) (.cons (by omega) .nil)) rfl, rfl⟩

/-- C9 counterexample: the claim also asserts at most one plan-less event
    per query signature per seen-pair TTL window; with the dedup caches
    configured at capacity 1, one batch emits two plan-less events with the
    same query signature within one cycle. -/
theorem C9_counterexample_planless_dedup :
    ((collect_plans_for_statements metaW orcPlain 0 smallCollectState
      [rowToDict rowA, rowToDict rowB, rowToDict rowA]).events.map eventPair) =
      [("QA", none), ("QB", none), ("QA", none)] ∧
    smallCollectState.seen.ttl = 240 := by
  exact ⟨rfl, rfl⟩

/-- C9 (amended): a filtered row that reaches the explain step and obtains
    no plan still produces an event with null plan definition, cost and
    signature, deduplicated under the pair (query signature, None), the
    pair being inserted into the seen cache at emission; hence, provided
    the seen cache performs no capacity eviction during the run, at most
    one plan-less event per query signature is emitted per seen-pair TTL
    window. -/
theorem C9_planless_event_amended :
    (∀ (σ : Type) (meta : EventMeta) (orc : CollectOracles σ) (now : Nat)
      (st : CollectState σ) (row : PyDict) (s os dt od : String)
      (schemaVal : PyVal) (e2 : σ) (te : ℚ) (tw : PyVal),
      pyLookup row "sql_text" = some (.vstr s) →
      orc.obfuscate_sql s = .ok os →
      pyLookup row "digest_text" = some (.vstr dt) →
      orc.obfuscate_sql dt = .ok od →
      st.explained.getAt (orc.compute_sql_signature od) now = none →
      pyLookup row "current_schema" = some schemaVal →
      orc.explain_statement_safe s schemaVal st.expl = (none, e2) →
      st.seen.getAt (orc.compute_sql_signature od, none) now = none →
      pyLookup row "timer_end_time_s" = some (.vnum te) →
      pyLookup row "timer_wait_ns" = some tw →
      ∃ ev st3, process_row meta orc now st row = .emitted ev st3 ∧
        ev.plan_definition = none ∧ ev.plan_cost = none ∧
        ev.plan_signature = none ∧
        ev.query_signature = orc.compute_sql_signature od ∧
        st3.seen = st.seen.insert (orc.compute_sql_signature od, none) () now) ∧
    (∀ (σ : Type) (meta : EventMeta) (orc : CollectOracles σ)
      (cycles : List (Nat × List PyDict)) (maxE ttlE maxS ttlS : Nat)
      (expl0 : σ),
      List.Chain (fun a b => a ≤ b) 0 (cycles.map Prod.fst) →
      (run_cycles meta orc cycles
        ⟨TTLCache.empty String Unit maxE ttlE,
         TTLCache.empty (String × Option String) Unit maxS ttlS,
         expl0⟩).2.seen.evictions = 0 →
      List.Pairwise (fun a b => a.2.plan_signature = none →
          b.2.plan_signature = none →
          a.2.query_signature = b.2.query_signature → a.1 + ttlS < b.1)
        (run_cycles meta orc cycles
          ⟨TTLCache.empty String Unit maxE ttlE,
           TTLCache.empty (String × Option String) Unit maxS ttlS,
           expl0⟩).1) := by
  constructor
  · intro σ meta orc now st row s os dt od schemaVal e2 te tw
      hsql hobf hdig hobf2 hexp hschema hsafe hseen hte htw
    simp only [process_row, hsql, hobf, hdig, hobf2, hexp, hschema, hsafe,
      hseen, hte, htw, pyMul1000, reduceCtorEq, if_false]
    exact ⟨_, _, rfl, rfl, rfl, rfl, rfl, rfl⟩
  · intro σ meta orc cycles maxE ttlE maxS ttlS expl0 hchain hnoevict
    have h := run_cycles_seen_sep meta orc cycles
      ⟨TTLCache.empty String Unit maxE ttlE,
       TTLCache.empty (String × Option String) Unit maxS ttlS, expl0⟩
      0 [] hchain List.nodup_nil (fun p hp => absurd hp (List.not_mem_nil p))
      hnoevict
    refine List.Pairwise.imp ?_ h.2
    intro a b hab hpa hpb hq
    refine hab ?_
    unfold eventPair
    rw [hpa, hpb, hq]

/-- C9 witness: the amended theorem applied to one concrete row whose
    explain finds no plan (the emitted event carries null plan fields and
    is recorded under the pair (QA, None)), and to a concrete eviction-free
    plan-less run. -/
theorem C9_planless_event_amended_witness :
    (∃ ev st3,
      process_row metaW orcPlain 0 freshCollectState (rowToDict rowA) =
        .emitted ev st3 ∧
      ev.plan_definition = none ∧ ev.plan_cost = none ∧
      ev.plan_signature = none ∧ ev.query_signature = "QA" ∧
      st3.seen = freshCollectState.seen.insert ("QA", none) () 0) ∧
    List.Pairwise (fun a b => a.2.plan_signature = none →
        b.2.plan_signature = none →
        a.2.query_signature = b.2.query_signature → a.1 + 240 < b.1)
      (run_cycles metaW orcPlain cyclesC8
        ⟨TTLCache.empty String Unit 5000 60,
         TTLCache.empty (String × Option String) Unit 10000 240, ()⟩).1 := by
  constructor
  · exact C9_planless_event_amended.1 Unit metaW orcPlain 0 freshCollectState
      (rowToDict rowA) "select id from customers" "select id from customers"
      "QA" "QA" (.vstr "orders") () 1600000000 (.vnum 5000)
      rfl rfl rfl rfl rfl rfl rfl rfl rfl rfl
  · exact C9_planless_event_amended.2 Unit metaW orcPlain cyclesC8 5000 60
      10000 240 () (.cons (by omega) (.cons (by omega) .nil)) rfl

end StatementSamples
